import Mathlib

/-!
Shallow embedding of the game-coordination core of `src/bot.py` (a chatroom
bot): the Snake & Ladder per-room session state machine
(`handle_sl_commands`, `advance_sl_turn`, `sl_turn_monitor`) and the Emoji
Duel state machine (`handle_emoji_duel_commands`, `start_duel_round`,
`check_duel_round_timeout`, `end_duel`), together with a small lock-trace
model of the `threading.Lock` acquisition structure of those code paths.

Modelling conventions:
* A Python dict keyed by lowercase username is an association list kept in
  insertion order (`lookupP`, `setP`, `eraseP`); usernames in the model are
  already lowercase, mirroring the `sender.lower()` keys of the source.
* Outcomes of `random.randint(1, 6)`, `random.shuffle` and `random.choice`
  are operation parameters (a die value, a permutation, a target symbol).
* Wall-clock time enters only as the elapsed seconds that `sl_turn_monitor`
  compares against its thresholds (the `sweep` parameter); the truthiness
  of `turn_start_time` is the Boolean `turnClockSet`.
* An exception a Python expression can raise (KeyError on a missing dict
  key, IndexError on a list index) is an `Err` value of an `Except` result.
* `GState.rankEvents` is a ghost log of the (player, rank) assignments of
  the current game, appended exactly where the source assigns a `rank`; it
  makes the sequence of assigned ranks observable even after the session
  entry is deleted from the state dict.
* Each chat-room runs one game of each kind, so the per-room dicts
  `sl_game_state[room_id]` / `emoji_duel_state[room_id]` are modelled for a
  single room as an `Option` (present or deleted); the rooms are
  independent in the source, each step touching only its own key.
-/

/-! ## Messages emitted to the chat room (observable outputs) -/

inductive Msg where
  | noGame
  | alreadyRunning (host : String)
  | lobbyOpen (host : String)
  | gameClosed
  | noGameToClose
  | cantJoinNow
  | alreadyJoined (u : String)
  | gameFull
  | profileRequest (u : String)
  | joining (u : String)
  | joined (u : String) (count : Nat)
  | onlyHost (host : String)
  | alreadyStarted
  | notEnoughPlayers
  | stillResolving (u : String)
  | started
  | turnPasses (u : String)
  | notYourTurn (u : String)
  | rolled (u : String) (die : Nat) (pos : Nat)
  | finished (u : String) (rank : Nat)
  | warnTime (u : String)
  | finalWarn (u : String)
  | eliminated (u : String)
  | kickUser (uid : Nat)
  | defaultWinner (u : String)
  | gameOver
  | quitMsg (u : String)
  | kickedMsg (u : String)
  | cantQuit
  | cantKickNotInGame
  | cancelledNotEnough
  | duelBusy
  | selfDuel
  | duelDeclared (challenger opponent : String)
  | duelOn (p1 p2 : String)
  | notForYou (u : String)
  | scoreMsg (u : String) (s1 s2 : Nat)
  | roundStart (r : Nat) (s1 s2 : Nat) (target : String)
  | fakeSet (u : String)
  | fakeFormat
  | onlyWinnerFake
  | cancelConfirm (u : String)
  | duelCancelled (p1 p2 : String)
  | champion (winner loser : String) (s1 s2 : Nat)
  | timeUp
  | inactivityCancelled (p1 p2 : String)
deriving DecidableEq

/-- Exceptions the embedded Python fragments can raise. -/
inductive Err where
  | keyError
  | indexError
  | invalidParam
deriving DecidableEq

deriving instance DecidableEq for Except

/-- Python `str.lower()`: per-character lowercasing. -/
def pyLower (s : String) : String := String.mk (s.data.map Char.toLower)

/-! ## Snake & Ladder configuration (Config.SNAKES_AND_LADDERS) -/

/-- Snake entries of `Config.SNAKES_AND_LADDERS` (the `# Saanp (Snakes)` group). -/
def SNAKES : List (Nat × Nat) :=
  [(99, 80), (91, 71), (85, 58), (74, 30), (46, 34), (42, 24), (9, 5)]

/-- Ladder entries of `Config.SNAKES_AND_LADDERS` (the `# Seedhi (Ladders)` group). -/
def LADDERS : List (Nat × Nat) :=
  [(3, 16), (20, 38), (29, 33), (36, 98), (41, 61), (50, 51), (55, 72), (88, 95)]

/-- The full snake/ladder remap table of `Config.SNAKES_AND_LADDERS`. -/
def SNAKES_AND_LADDERS : List (Nat × Nat) := SNAKES ++ LADDERS

/-- Config.SL_TURN_DURATION_SECONDS. -/
def SL_TURN_DURATION_SECONDS : Nat := 45

/-- Dict key lookup on the remap table (`new_pos in Config.SNAKES_AND_LADDERS`
followed by `Config.SNAKES_AND_LADDERS[new_pos]`). -/
def tableLookup : List (Nat × Nat) → Nat → Option Nat
  | [], _ => none
  | e :: t, k => if e.1 = k then some e.2 else tableLookup t k

/-- The position reached after the die advance and snake/ladder remap
(`new_pos = old_pos + rolled; if new_pos in SNAKES_AND_LADDERS: new_pos = ...`). -/
def rollFinalPos (old die : Nat) : Nat :=
  match tableLookup SNAKES_AND_LADDERS (old + die) with
  | some v => v
  | none => old + die

/-- The position recorded for the player after the roll: the remapped
position, clamped to 100 by the finish branch (`if new_pos >= 100:
player_data.update({"position": 100, ...})`). -/
def rollRecordedPos (old die : Nat) : Nat :=
  if 100 ≤ rollFinalPos old die then 100 else rollFinalPos old die

/-! ## Snake & Ladder data model -/

inductive PStatus where
  | playing
  | finished
deriving DecidableEq

/-- One entry of `game["players"]` as created by the `sl_join` profile
handler: `{"username": ..., "userid": ..., "dp_url": ..., "position": 1,
"status": "playing", "rank": 0}`. -/
structure SLPlayer where
  username : String
  userid : Option Nat := none
  dpUrl : Option String := none
  position : Nat := 1
  status : PStatus := .playing
  rank : Nat := 0
deriving DecidableEq

inductive SLStatus where
  | lobby
  | active
deriving DecidableEq

/-- The per-room dict `bot_state.sl_game_state[room_id]`. -/
structure SLGame where
  status : SLStatus
  host : String
  players : List (String × SLPlayer) := []
  turnOrder : List String := []
  currentTurnIndex : Nat := 0
  nextRank : Nat := 1
  turnClockSet : Bool := false
  warn1 : Bool := false
  warn2 : Bool := false
  originalPlayerCount : Nat := 0
deriving DecidableEq

/-- The room-scoped bot state relevant to Snake & Ladder: the game entry
(deleted = `none`), the pending `sl_join` profile-request contexts of
`bot_state.profile_request_context`, and the ghost rank-assignment log. -/
structure GState where
  game : Option SLGame := none
  pendingJoins : List String := []
  rankEvents : List (String × Nat) := []
deriving DecidableEq

/-! ### Association-list operations mirroring Python dict operations -/

/-- `d.get(k)` / `d[k]` lookup on an insertion-ordered dict. -/
def lookupP : List (String × SLPlayer) → String → Option SLPlayer
  | [], _ => none
  | e :: t, k => if e.1 = k then some e.2 else lookupP t k

/-- `d[k] = v`: replace in place when the key exists, else append. -/
def setP : List (String × SLPlayer) → String → SLPlayer → List (String × SLPlayer)
  | [], k, v => [(k, v)]
  | e :: t, k, v => if e.1 = k then (k, v) :: t else e :: setP t k v

/-- `del d[k]` (callers check membership first; dict keys are unique). -/
def eraseP : List (String × SLPlayer) → String → List (String × SLPlayer)
  | [], _ => []
  | e :: t, k => if e.1 = k then t else e :: eraseP t k

def keysP (ps : List (String × SLPlayer)) : List String := ps.map Prod.fst

/-- `[p for p in players.values() if p["status"] == "playing"]` (as entries). -/
def playingEntries (ps : List (String × SLPlayer)) : List (String × SLPlayer) :=
  ps.filter (fun e => decide (e.2.status = PStatus.playing))

/-- `[k for k, v in players.items() if v["status"] == "playing"]`. -/
def playingKeysOf (ps : List (String × SLPlayer)) : List String :=
  (playingEntries ps).map Prod.fst

/-! ### advance_sl_turn (bot.py lines 681-700) -/

/-- `advance_sl_turn(room_id, game_state)`: filters `turn_order` down to the
players still `playing`, clamps `current_turn_index`, resets the turn clock
and warning flags, and returns the username of the player now on turn.
`Except` failure marks the dict/list accesses the Python could raise on;
`ok none` is the `return None, None` paths (callers delete the game). -/
def advanceSlTurn (g : SLGame) : Except Err (Option (SLGame × String)) :=
  if g.status ≠ .active then .ok none
  else
    let activeKeys := playingKeysOf g.players
    if activeKeys = [] then .ok none
    else
      let newOrder := g.turnOrder.filter (fun k => decide (k ∈ activeKeys))
      if newOrder = [] then .ok none
      else
        let idx := if newOrder.length ≤ g.currentTurnIndex then 0 else g.currentTurnIndex
        match newOrder[idx]? with
        | none => .error .indexError
        | some key =>
          match lookupP g.players key with
          | none => .error .keyError
          | some p =>
            .ok (some ({ g with
                          turnOrder := newOrder,
                          currentTurnIndex := idx,
                          turnClockSet := true,
                          warn1 := false,
                          warn2 := false }, p.username))

/-! ### Snake & Ladder operations (handle_sl_commands, profile handler, monitor) -/

/-- The operations that can act on one room's Snake & Ladder state.
Randomness (die value, shuffle outcome) and wall-clock elapsed time are
parameters of the corresponding operation. -/
inductive SLOp where
  | openLobby (host : String)
  | closeGame
  | joinReq (u : String)
  | resolveJoin (u : String) (uid : Option Nat)
  | start (requester : String) (perm : List String)
  | roll (u : String) (die : Nat)
  | quit (u : String)
  | kick (actor : String) (isMaster : Bool) (target : String)
  | sweep (elapsed : Nat)
deriving DecidableEq

/-- `!sl 1` (master): open a lobby unless a game already exists
(bot.py 1937-1942). Opening a new game starts a fresh ghost rank log. -/
def slOpenLobby (host : String) (gs : GState) : Except Err (GState × List Msg) :=
  match gs.game with
  | some g => .ok (gs, [.alreadyRunning g.host])
  | none =>
    .ok ({ gs with game := some { status := .lobby, host := host }, rankEvents := [] },
         [.lobbyOpen host])

/-- `!sl 0` (master): close the game (bot.py 1943-1948). -/
def slCloseGame (gs : GState) : Except Err (GState × List Msg) :=
  match gs.game with
  | some _ => .ok ({ gs with game := none }, [.gameClosed])
  | none => .ok (gs, [.noGameToClose])

/-- `!j` (bot.py 1951-1963): lobby-only, rejects duplicates and a full
lobby; on success only records the profile-request context and sends the
profile request, without touching `players`. -/
def slJoinReq (u : String) (gs : GState) : Except Err (GState × List Msg) :=
  match gs.game with
  | none => .ok (gs, [.noGame])
  | some g =>
    if g.status ≠ .lobby then .ok (gs, [.cantJoinNow])
    else if (lookupP g.players u).isSome then .ok (gs, [.alreadyJoined u])
    else if 10 ≤ g.players.length then .ok (gs, [.gameFull])
    else
      let pending := if u ∈ gs.pendingJoins then gs.pendingJoins else gs.pendingJoins ++ [u]
      .ok ({ gs with pendingJoins := pending }, [.profileRequest u, .joining u])

/-- Asynchronous profile reply for a pending `sl_join` context
(bot.py 2874-2883): the player is inserted only if the game still exists
and is still in the lobby; the context is consumed either way. -/
def slResolveJoin (u : String) (uid : Option Nat) (gs : GState) :
    Except Err (GState × List Msg) :=
  if u ∈ gs.pendingJoins then
    let pending := gs.pendingJoins.filter (fun x => decide (x ≠ u))
    match gs.game with
    | some g =>
      if g.status = .lobby then
        let players := setP g.players u
          { username := u, userid := uid, dpUrl := none,
            position := 1, status := .playing, rank := 0 }
        .ok ({ gs with game := some { g with players := players },
                       pendingJoins := pending },
             [.joined u players.length])
      else .ok ({ gs with pendingJoins := pending }, [])
    | none => .ok ({ gs with pendingJoins := pending }, [])
  else .ok (gs, [])

/-- `!start` (bot.py 1981-2003): host-only, lobby-only, needs at least two
players all with a resolved userid; shuffles the turn order (the shuffle
outcome is the `perm` parameter) and activates the game.  The spawned
board thread eventually sets `turn_start_time`; the model sets
`turnClockSet` directly. -/
def slStart (requester : String) (perm : List String) (gs : GState) :
    Except Err (GState × List Msg) :=
  match gs.game with
  | none => .ok (gs, [.noGame])
  | some g =>
    if requester ≠ g.host then .ok (gs, [.onlyHost g.host])
    else if g.status ≠ .lobby then .ok (gs, [.alreadyStarted])
    else if g.players.length < 2 then .ok (gs, [.notEnoughPlayers])
    else
      match g.players.find? (fun e => e.2.userid.isNone) with
      | some e => .ok (gs, [.stillResolving e.2.username])
      | none =>
        if _hp : perm.Perm (keysP g.players) then
          match perm[0]? with
          | none => .error .indexError
          | some k0 =>
            match lookupP g.players k0 with
            | none => .error .keyError
            | some p0 =>
              .ok ({ gs with game := some { g with
                        turnOrder := perm,
                        status := .active,
                        originalPlayerCount := g.players.length,
                        turnClockSet := true } },
                   [.started, .turnPasses p0.username])
        else .error .invalidParam

/-- The tail of `perform_roll` shared by both roll outcomes
(bot.py 2035-2046), after the turn index has been bumped: end the game
when at most one player is still playing (crowning a default winner when
exactly one remains), otherwise advance the turn. -/
def slAfterRollCore (gs : GState) (g : SLGame) (ms : List Msg) :
    Except Err (GState × List Msg) :=
  let actives := playingEntries g.players
  if actives.length ≤ 1 then
    if actives.length = 1 then
      match g.players.find? (fun e => decide (e.2.status = PStatus.playing)) with
      | none => .error .keyError
      | some e =>
        let players := setP g.players e.1
          { e.2 with status := .finished, rank := g.nextRank }
        let _ := players
        .ok ({ gs with game := none,
                       rankEvents := gs.rankEvents ++ [(e.1, g.nextRank)] },
             ms ++ [.gameOver])
    else
      .ok ({ gs with game := none }, ms ++ [.gameOver])
  else
    match advanceSlTurn g with
    | .error e => .error e
    | .ok none => .ok ({ gs with game := none }, ms)
    | .ok (some (g2, nm)) =>
      .ok ({ gs with game := some g2 }, ms ++ [.turnPasses nm])

/-- The tail of `perform_roll` including the index bump
(`game["current_turn_index"] = (game["current_turn_index"] + 1)`). -/
def slAfterRoll (gs : GState) (g : SLGame) (ms : List Msg) :
    Except Err (GState × List Msg) :=
  slAfterRollCore gs { g with currentTurnIndex := g.currentTurnIndex + 1 } ms

/-- `!roll` (bot.py 2005-2054, with the state mutation of `perform_roll`
taken as the atomic effect of the operation): only the player at
`turn_order[current_turn_index]` may roll; the die advance is remapped by
the snake/ladder table and finalized at 100, assigning `next_rank` on a
finish. -/
def slRoll (u : String) (die : Nat) (gs : GState) : Except Err (GState × List Msg) :=
  match gs.game with
  | none => .ok (gs, [.noGame])
  | some g =>
    if g.status ≠ .active then .ok (gs, [])
    else
      match g.turnOrder[g.currentTurnIndex]? with
      | none => .error .indexError
      | some cur =>
        if u ≠ cur then .ok (gs, [.notYourTurn cur])
        else if ¬ (1 ≤ die ∧ die ≤ 6) then .error .invalidParam
        else
          match lookupP g.players u with
          | none => .error .keyError
          | some p =>
            let fin := rollFinalPos p.position die
            if 100 ≤ fin then
              let p2 := { p with position := 100, status := PStatus.finished,
                                 rank := g.nextRank }
              let g2 := { g with players := setP g.players u p2,
                                 nextRank := g.nextRank + 1 }
              slAfterRoll
                { gs with rankEvents := gs.rankEvents ++ [(u, g.nextRank)] } g2
                [.rolled u die 100, .finished u g.nextRank]
            else
              let g2 := { g with players := setP g.players u { p with position := fin } }
              slAfterRoll gs g2 [.rolled u die fin]

/-- `!quit` (bot.py 2056-2069): removes the player from `players` and
`turn_order`; cancels the game when fewer than two playing players remain;
re-advances the turn only when it was the quitting player's turn. -/
def slQuit (u : String) (gs : GState) : Except Err (GState × List Msg) :=
  match gs.game with
  | none => .ok (gs, [.noGame])
  | some g =>
    if g.status ≠ .active ∨ (lookupP g.players u).isNone then .ok (gs, [.cantQuit])
    else
      match g.turnOrder[g.currentTurnIndex]? with
      | none => .error .indexError
      | some cur =>
        let wasTurn := cur = u
        let players := eraseP g.players u
        let order := g.turnOrder.filter (fun k => decide (k ≠ u))
        let g2 := { g with players := players, turnOrder := order }
        if (playingEntries players).length < 2 then
          .ok ({ gs with game := none }, [.quitMsg u, .cancelledNotEnough])
        else if wasTurn then
          let idx := if order.length ≤ g2.currentTurnIndex then 0 else g2.currentTurnIndex
          match advanceSlTurn { g2 with currentTurnIndex := idx } with
          | .error e => .error e
          | .ok none => .ok ({ gs with game := none }, [.quitMsg u])
          | .ok (some (g3, nm)) =>
            .ok ({ gs with game := some g3 }, [.quitMsg u, .turnPasses nm])
        else
          .ok ({ gs with game := some g2 }, [.quitMsg u])

/-- `!kick` (bot.py 2071-2089): host/master-only removal of a player,
with the same post-removal logic as `!quit`. -/
def slKick (actor : String) (isMaster : Bool) (target : String) (gs : GState) :
    Except Err (GState × List Msg) :=
  match gs.game with
  | none => .ok (gs, [.noGame])
  | some g =>
    if g.status ≠ .active then .ok (gs, [])
    else if ¬ isMaster ∧ actor ≠ g.host then .ok (gs, [.onlyHost g.host])
    else if (lookupP g.players target).isNone then .ok (gs, [.cantKickNotInGame])
    else
      match g.turnOrder[g.currentTurnIndex]? with
      | none => .error .indexError
      | some cur =>
        let wasTurn := cur = target
        let players := eraseP g.players target
        let order := g.turnOrder.filter (fun k => decide (k ≠ target))
        let g2 := { g with players := players, turnOrder := order }
        if (playingEntries players).length < 2 then
          .ok ({ gs with game := none }, [.kickedMsg target, .cancelledNotEnough])
        else if wasTurn then
          let idx := if order.length ≤ g2.currentTurnIndex then 0 else g2.currentTurnIndex
          match advanceSlTurn { g2 with currentTurnIndex := idx } with
          | .error e => .error e
          | .ok none => .ok ({ gs with game := none }, [.kickedMsg target])
          | .ok (some (g3, nm)) =>
            .ok ({ gs with game := some g3 }, [.kickedMsg target, .turnPasses nm])
        else
          .ok ({ gs with game := some g2 }, [.kickedMsg target])

/-- One pass of `sl_turn_monitor` over this room (bot.py 711-757), with
`elapsed` the wall-clock seconds since `turn_start_time`: warning at more
than 15s, final warning at more than 30s, elimination (removal, kick
attempt, advance or default-winner crowning) at more than
`SL_TURN_DURATION_SECONDS`, in an if/elif chain. -/
def slSweep (elapsed : Nat) (gs : GState) : Except Err (GState × List Msg) :=
  match gs.game with
  | none => .ok (gs, [])
  | some g =>
    if g.status ≠ .active ∨ g.turnClockSet = false then .ok (gs, [])
    else if g.turnOrder.length ≤ g.currentTurnIndex then .ok (gs, [])
    else
      match g.turnOrder[g.currentTurnIndex]? with
      | none => .error .indexError
      | some cur =>
        match lookupP g.players cur with
        | none => .ok (gs, [])
        | some p =>
          if p.status ≠ .playing then .ok (gs, [])
          else if 15 < elapsed ∧ g.warn1 = false then
            .ok ({ gs with game := some { g with warn1 := true } }, [.warnTime p.username])
          else if 30 < elapsed ∧ g.warn2 = false then
            .ok ({ gs with game := some { g with warn2 := true } }, [.finalWarn p.username])
          else if SL_TURN_DURATION_SECONDS < elapsed then
            let ms0 := [.eliminated p.username] ++
              (match p.userid with | some uid => [Msg.kickUser uid] | none => [])
            let players := eraseP g.players cur
            let g2 := { g with players := players }
            let actives := playingEntries players
            if actives.length ≤ 1 then
              if actives.length = 1 then
                match players.find? (fun e => decide (e.2.status = PStatus.playing)) with
                | none => .error .keyError
                | some e =>
                  let players2 := setP players e.1
                    { e.2 with status := .finished, rank := g.nextRank }
                  let _ := players2
                  .ok ({ gs with game := none,
                                 rankEvents := gs.rankEvents ++ [(e.1, g.nextRank)] },
                       ms0 ++ [.defaultWinner e.2.username, .gameOver])
              else
                .ok ({ gs with game := none }, ms0 ++ [.gameOver])
            else
              let order := g.turnOrder.filter (fun k => decide (k ≠ cur))
              let idx := if order.length ≤ g.currentTurnIndex then 0 else g.currentTurnIndex
              match advanceSlTurn { g2 with turnOrder := order, currentTurnIndex := idx } with
              | .error e => .error e
              | .ok none => .ok ({ gs with game := none }, ms0)
              | .ok (some (g3, nm)) =>
                .ok ({ gs with game := some g3 }, ms0 ++ [.turnPasses nm])
          else .ok (gs, [])

/-- Dispatch of one Snake & Ladder operation. -/
def slStep : SLOp → GState → Except Err (GState × List Msg)
  | .openLobby host, gs => slOpenLobby host gs
  | .closeGame, gs => slCloseGame gs
  | .joinReq u, gs => slJoinReq u gs
  | .resolveJoin u uid, gs => slResolveJoin u uid gs
  | .start requester perm, gs => slStart requester perm gs
  | .roll u die, gs => slRoll u die gs
  | .quit u, gs => slQuit u gs
  | .kick actor isMaster target, gs => slKick actor isMaster target gs
  | .sweep elapsed, gs => slSweep elapsed gs

def runSLFrom (gs : GState) : List SLOp → Except Err GState
  | [] => .ok gs
  | op :: t =>
    match slStep op gs with
    | .error e => .error e
    | .ok (gs2, _) => runSLFrom gs2 t

/-- Run a sequence of operations from the initial bot state (no game,
no pending contexts). -/
def runSL (l : List SLOp) : Except Err GState := runSLFrom { } l

/-- A state is reachable when some operation sequence produces it without
an uncaught exception. -/
def SLReach (gs : GState) : Prop := ∃ l, runSL l = .ok gs

def getOkSL : Except Err GState → GState
  | .ok s => s
  | .error _ => { }

/-! ## Emoji Duel data model (bot.py 1783-1924, 412-439) -/

inductive DStatus where
  | pending
  | active
deriving DecidableEq

/-- `{"name": ..., "score": 0, "dp_url": None}` of a duel party. -/
structure DuelPlayer where
  name : String
  score : Nat := 0
  dpUrl : Option String := none
deriving DecidableEq

/-- The per-room dict `bot_state.emoji_duel_state[room_id]`.  Keys the
source adds only later (`round`, `round_winner`, `next_round_faker`,
`fake_emoji`, `target_emoji`) are `Option` fields defaulting to `none`;
reading such a key with `duel[...]` raises KeyError while `duel.get(...)`
returns `None`, and the model mirrors that distinction. -/
structure DuelGame where
  status : DStatus
  p1 : DuelPlayer
  p2 : DuelPlayer
  round : Option Nat := none
  roundWinner : Option String := none
  nextRoundFaker : Option String := none
  fakeEmoji : Option String := none
  targetEmoji : Option String := none
  cancelRequests : List String := []
deriving DecidableEq

/-- `end_duel(room_id, was_cancelled)` on a present duel (bot.py 416-439):
on a normal end the winner is `p1 if p1['score'] > p2['score'] else p2` —
an equal score silently selects `p2`. -/
def endDuelCore (d : DuelGame) (wasCancelled : Bool) : Option DuelGame × List Msg :=
  if wasCancelled then
    (none, [.duelCancelled d.p1.name d.p2.name])
  else
    let winner := if d.p1.score > d.p2.score then d.p1 else d.p2
    let loser := if d.p1.score > d.p2.score then d.p2 else d.p1
    (none, [.champion winner.name loser.name d.p1.score d.p2.score])

/-- `end_duel` including its `if room_id not in ...: return` guard
(bot.py 412-414). -/
def endDuelOp (ds : Option DuelGame) (wasCancelled : Bool) : Option DuelGame × List Msg :=
  match ds with
  | none => (ds, [])
  | some d => endDuelCore d wasCancelled

/-- `start_duel_round(room_id)` (bot.py 1879-1917): bump the round, clear
the round winner, end the duel once the round count exceeds 5 or either
score reaches 3, otherwise publish the round header for the target symbol
(`target` parameter stands for the `random.choice` outcome) and clear the
pending faker flag. -/
def startDuelRound (ds : Option DuelGame) (target : String) :
    Except Err (Option DuelGame × List Msg) :=
  match ds with
  | none => .ok (ds, [])
  | some d =>
    match d.round with
    | none => .error .keyError
    | some r =>
      let d := { d with round := some (r + 1), roundWinner := none }
      if r + 1 > 5 ∨ 3 ≤ d.p1.score ∨ 3 ≤ d.p2.score then
        .ok (endDuelOp (some d) false)
      else
        let d := { d with targetEmoji := some target, nextRoundFaker := none }
        .ok (some d, [.roundStart (r + 1) d.p1.score d.p2.score target])

/-- The operations that can act on one room's Emoji Duel state. -/
inductive DuelOp where
  | challenge (challenger opponent : String)
  | accept (sender target : String)
  | catchEmoji (sender target : String)
  | fake (sender : String) (emoji : Option String)
  | cancel (sender : String)
  | roundTimeout (r : Nat) (target : String)
  | inactivitySweep
deriving DecidableEq

/-- One Emoji Duel operation (handle_emoji_duel_commands branches,
check_duel_round_timeout, and the 5-minute inactivity sweep of
cleanup_stale_requests).  The nested `start_duel_round` / `end_duel` calls
of the source are composed sequentially here; their acquisition of the
already-held `emoji_duel_lock` is treated separately by the lock-trace
model below. -/
def duelStep : DuelOp → Option DuelGame → Except Err (Option DuelGame × List Msg)
  | .challenge ch opp, ds =>
    match ds with
    | some _ => .ok (ds, [.duelBusy])
    | none =>
      if pyLower ch = pyLower opp then .ok (ds, [.selfDuel])
      else
        .ok (some { status := .pending, p1 := { name := ch }, p2 := { name := opp } },
             [.duelDeclared ch opp])
  | .accept s target, ds =>
    match ds with
    | none => .ok (ds, [])
    | some d =>
      if d.status = .pending then
        if pyLower s = pyLower d.p2.name then
          let d := { d with status := .active, round := some 0 }
          match startDuelRound (some d) target with
          | .error e => .error e
          | .ok (ds2, ms) => .ok (ds2, .duelOn d.p1.name d.p2.name :: ms)
        else .ok (ds, [.notForYou s])
      else .ok (ds, [])
  | .catchEmoji s target, ds =>
    match ds with
    | none => .ok (ds, [])
    | some d =>
      if d.status = .active then
        if d.roundWinner.isSome then .ok (ds, [])
        else if pyLower s ≠ pyLower d.p1.name ∧ pyLower s ≠ pyLower d.p2.name then
          .ok (ds, [])
        else
          let d2 :=
            if pyLower s = pyLower d.p1.name then
              { d with roundWinner := some s,
                       p1 := { d.p1 with score := d.p1.score + 1 },
                       nextRoundFaker := some d.p1.name }
            else
              { d with roundWinner := some s,
                       p2 := { d.p2 with score := d.p2.score + 1 },
                       nextRoundFaker := some d.p2.name }
          match startDuelRound (some d2) target with
          | .error e => .error e
          | .ok (ds2, ms) => .ok (ds2, .scoreMsg s d2.p1.score d2.p2.score :: ms)
      else .ok (ds, [])
  | .fake s emoji, ds =>
    match ds with
    | none => .ok (ds, [])
    | some d =>
      if d.status = .active then
        if (match d.nextRoundFaker with
            | some f => decide (pyLower f = pyLower s)
            | none => false) then
          match emoji with
          | some e => .ok (some { d with fakeEmoji := some e }, [.fakeSet s])
          | none => .ok (ds, [.fakeFormat])
        else .ok (ds, [.onlyWinnerFake])
      else .ok (ds, [])
  | .cancel s, ds =>
    match ds with
    | none => .ok (ds, [])
    | some d =>
      if pyLower s ≠ pyLower d.p1.name ∧ pyLower s ≠ pyLower d.p2.name then .ok (ds, [])
      else
        let reqs := if pyLower s ∈ d.cancelRequests then d.cancelRequests
                    else d.cancelRequests ++ [pyLower s]
        let d2 := { d with cancelRequests := reqs }
        if reqs.length = 2 then .ok (endDuelOp (some d2) true)
        else .ok (some d2, [.cancelConfirm s])
  | .roundTimeout r target, ds =>
    match ds with
    | none => .ok (ds, [])
    | some d =>
      if d.round = some r ∧ d.roundWinner = none then
        match startDuelRound (some d) target with
        | .error e => .error e
        | .ok (ds2, ms) => .ok (ds2, .timeUp :: ms)
      else .ok (ds, [])
  | .inactivitySweep, ds =>
    match ds with
    | none => .ok (ds, [])
    | some d => .ok (none, [.inactivityCancelled d.p1.name d.p2.name])

def runDuelFrom (ds : Option DuelGame) : List DuelOp → Except Err (Option DuelGame)
  | [] => .ok ds
  | op :: t =>
    match duelStep op ds with
    | .error e => .error e
    | .ok (ds2, _) => runDuelFrom ds2 t

def runDuel (l : List DuelOp) : Except Err (Option DuelGame) := runDuelFrom none l

def DuelReach (ds : Option DuelGame) : Prop := ∃ l, runDuel l = .ok ds

def getOkD : Except Err (Option DuelGame) → Option DuelGame
  | .ok s => s
  | .error _ => none

/-! ## Lock-trace model of the threading.Lock acquisition structure

`BotState` holds plain (non-reentrant) `threading.Lock` objects
(`sl_game_lock`, `emoji_duel_lock`, `presence_lock`).  A code path is
abstracted to the sequence of acquire/release events its `with lock:`
blocks perform in one thread, in source order; acquiring a lock the same
thread already holds blocks that thread forever. -/

inductive LockId where
  | slGame
  | emojiDuel
  | presence
deriving DecidableEq

inductive LockEv where
  | acq (l : LockId)
  | rel (l : LockId)
deriving DecidableEq

/-- Run a lock trace with the given held-set: `none` marks the thread
blocking forever on an acquisition of a lock it already holds. -/
def lockRun : List LockEv → List LockId → Option (List LockId)
  | [], held => some held
  | .acq l :: t, held => if l ∈ held then none else lockRun t (l :: held)
  | .rel l :: t, held => lockRun t (held.erase l)

/-- Every acquisition along the trace completes. -/
def completesAllAcquisitions (t : List LockEv) : Bool := (lockRun t []).isSome

/-- Lock events of `start_duel_round` (bot.py 1880: `with
bot_state.emoji_duel_lock:` around its whole body). -/
def startDuelRoundLocks : List LockEv := [.acq .emojiDuel, .rel .emojiDuel]

/-- Lock events of `end_duel` (bot.py 413). -/
def endDuelLocks : List LockEv := [.acq .emojiDuel, .rel .emojiDuel]

/-- Lock events of the `!accept` branch of `handle_emoji_duel_commands`
(bot.py 1784 takes `emoji_duel_lock` for the whole handler; line 1830
calls `start_duel_round` while still inside that block). -/
def duelAcceptPathLocks : List LockEv :=
  [.acq .emojiDuel] ++ startDuelRoundLocks ++ [.rel .emojiDuel]

/-- Lock events of the `!catch` branch (bot.py 1834-1850: handler block,
then `start_duel_round` at line 1850 inside it). -/
def duelCatchPathLocks : List LockEv :=
  [.acq .emojiDuel] ++ startDuelRoundLocks ++ [.rel .emojiDuel]

/-- Lock events of the `!cancelduel` confirmation branch (bot.py 1865-1874:
handler block, then `end_duel` at line 1874 inside it). -/
def duelCancelPathLocks : List LockEv :=
  [.acq .emojiDuel] ++ endDuelLocks ++ [.rel .emojiDuel]

/-- Lock events of one room iteration of `sl_turn_monitor`
(bot.py 712: `with bot_state.sl_game_lock:`; no nested acquisition). -/
def slMonitorPathLocks : List LockEv := [.acq .slGame, .rel .slGame]

/-- Lock events of `handle_sl_commands` (bot.py 1926: `with
bot_state.sl_game_lock:`; `advance_sl_turn` takes no lock and
`perform_roll` runs on a separate spawned thread). -/
def slHandlerPathLocks : List LockEv := [.acq .slGame, .rel .slGame]

/-- Lock events of `check_duel_round_timeout` (bot.py 1920: handler block,
then `start_duel_round` at line 1924 inside it). -/
def duelTimeoutPathLocks : List LockEv :=
  [.acq .emojiDuel] ++ startDuelRoundLocks ++ [.rel .emojiDuel]

/-! ## Concrete operation sequences used as evidence -/

/-- Lobby setup with three resolved players a, b, c hosted by h. -/
def slSetup3 : List SLOp :=
  [.openLobby "h",
   .joinReq "a", .resolveJoin "a" (some 1),
   .joinReq "b", .resolveJoin "b" (some 2),
   .joinReq "c", .resolveJoin "c" (some 3)]

/-- Lobby setup with two resolved players a, b hosted by h. -/
def slSetup2 : List SLOp :=
  [.openLobby "h",
   .joinReq "a", .resolveJoin "a" (some 1),
   .joinReq "b", .resolveJoin "b" (some 2)]

/-- Three players, two uneventful rolls (turn reaches index 2, player c),
then the player at index 0 quits while it is not their turn. -/
def c1Trace : List SLOp :=
  slSetup3 ++ [.start "h" ["a", "b", "c"], .roll "a" 1, .roll "b" 1, .quit "a"]

/-- Three players; player a climbs the ladders over eight full turn cycles
(b and c always roll 1) and then rolls from 95 to exactly 100. -/
def c4Trace : List SLOp :=
  slSetup3 ++
  [.start "h" ["a", "b", "c"],
   .roll "a" 2, .roll "b" 1, .roll "c" 1,
   .roll "a" 4, .roll "b" 1, .roll "c" 1,
   .roll "a" 3, .roll "b" 1, .roll "c" 1,
   .roll "a" 5, .roll "b" 1, .roll "c" 1,
   .roll "a" 6, .roll "b" 1, .roll "c" 1,
   .roll "a" 6, .roll "b" 1, .roll "c" 1,
   .roll "a" 4, .roll "b" 1, .roll "c" 1,
   .roll "a" 6, .roll "b" 1, .roll "c" 1,
   .roll "a" 5]

/-- Two players; player a climbs to square 95 over eight turn cycles and it
is again a's turn. -/
def c3Trace : List SLOp :=
  slSetup2 ++
  [.start "h" ["a", "b"],
   .roll "a" 2, .roll "b" 1,
   .roll "a" 4, .roll "b" 1,
   .roll "a" 3, .roll "b" 1,
   .roll "a" 5, .roll "b" 1,
   .roll "a" 6, .roll "b" 1,
   .roll "a" 6, .roll "b" 1,
   .roll "a" 4, .roll "b" 1,
   .roll "a" 6, .roll "b" 1]

def c3Gs : GState := getOkSL (runSL c3Trace)

def c3Game : SLGame := c3Gs.game.getD { status := .lobby, host := "h" }

/-- Two players and an active game with both warnings already sent. -/
def c6Trace : List SLOp :=
  slSetup2 ++ [.start "h" ["a", "b"], .sweep 16, .sweep 31]

def c6Gs : GState := getOkSL (runSL c6Trace)

def c6Game : SLGame := c6Gs.game.getD { status := .lobby, host := "h" }

/-- The messages produced by the 46-second sweep at `c6Gs`. -/
def c6SweepMs : List Msg :=
  [Msg.eliminated "a", Msg.kickUser 1, Msg.defaultWinner "b", Msg.gameOver]

/-- Small reachable active state used as a witness input for rolls. -/
def c4wTrace : List SLOp := slSetup2 ++ [.start "h" ["a", "b"]]

def c4wGs : GState := getOkSL (runSL c4wTrace)

def c4wGame : SLGame := c4wGs.game.getD { status := .lobby, host := "h" }

def c4Gs : GState := getOkSL (runSL c4Trace)

def c4Game : SLGame := c4Gs.game.getD { status := .lobby, host := "h" }

/-- The state after a rolls a 1 at `c4wGs`. -/
def c4wPost : GState := getOkSL (runSL (c4wTrace ++ [.roll "a" 1]))

def c4wPostGame : SLGame := c4wPost.game.getD { status := .lobby, host := "h" }

/-- Lobby with one resolved player, used as a witness input for joins. -/
def c8Trace : List SLOp := [.openLobby "h", .joinReq "a", .resolveJoin "a" (some 1)]

def c8Gs : GState := getOkSL (runSL c8Trace)

def c8Game : SLGame := c8Gs.game.getD { status := .active, host := "h" }

/-- An accepted duel in which the parties alternate round wins four times:
the score is 2-2 with round 5 under way and no round winner yet. -/
def c2Pre : List DuelOp :=
  [.challenge "a" "b", .accept "b" "t",
   .catchEmoji "a" "t", .catchEmoji "b" "t",
   .catchEmoji "a" "t", .catchEmoji "b" "t"]

def c2Duel : Option DuelGame := getOkD (runDuel c2Pre)

/-- A freshly accepted duel (round 1, score 0-0). -/
def c5Pre : List DuelOp := [.challenge "a" "b", .accept "b" "t"]

def c5Duel : Option DuelGame := getOkD (runDuel c5Pre)

/-- Placeholder duel used only to strip an `Option`. -/
def defaultDuel : DuelGame :=
  { status := .pending, p1 := { name := "" }, p2 := { name := "" } }

def c2Game : DuelGame := c2Duel.getD defaultDuel

def c5Game : DuelGame := c5Duel.getD defaultDuel

/-! ## Invariants -/

/-- Position bounds of one player record: in `[1,100]`, and at most 99
while still playing. -/
def PlayerOK (p : SLPlayer) : Prop :=
  1 ≤ p.position ∧ (p.status = .playing → p.position ≤ 99) ∧ p.position ≤ 100

/-- Well-formedness of a live Snake & Ladder game, relative to the number
`n` of ranks assigned so far in this game. -/
def GameWF (g : SLGame) (n : Nat) : Prop :=
  g.nextRank = n + 1 ∧
  (keysP g.players).Nodup ∧
  (∀ k, k ∈ g.turnOrder → ∃ p, lookupP g.players k = some p ∧ p.status = .playing) ∧
  (g.status = .active → ∀ e, e ∈ g.players → e.2.status = .playing → e.1 ∈ g.turnOrder) ∧
  (g.status = .active → 2 ≤ (playingEntries g.players).length) ∧
  (∀ e, e ∈ g.players → PlayerOK e.2) ∧
  (g.status = .lobby → g.turnOrder = [] ∧ g.currentTurnIndex = 0 ∧
     ∀ e, e ∈ g.players → e.2.status = .playing ∧ e.2.position = 1)

/-- Well-formedness of the room state: the ghost rank log reads 1, 2, 3, …
and any live game is well-formed against it. -/
def WF (gs : GState) : Prop :=
  gs.rankEvents.map Prod.snd = List.range' 1 gs.rankEvents.length ∧
  ∀ g, gs.game = some g → GameWF g gs.rankEvents.length

/-- Well-formedness of a live Emoji Duel: a pending duel has no round and
zero scores; an active duel is in rounds 1-5 with both scores at most 2. -/
def DuelWF : Option DuelGame → Prop
  | none => True
  | some d =>
    (d.status = .pending → d.round = none ∧ d.p1.score = 0 ∧ d.p2.score = 0) ∧
    (d.status = .active →
      ∃ r, d.round = some r ∧ 1 ≤ r ∧ r ≤ 5 ∧ d.p1.score ≤ 2 ∧ d.p2.score ≤ 2)

/-! ## Helper lemmas on the dict operations -/

theorem lookupP_mem {ps : List (String × SLPlayer)} {k : String} {p : SLPlayer} :
    lookupP ps k = some p → (k, p) ∈ ps := by
  induction ps with
  | nil => intro h; simp [lookupP] at h
  | cons e t ih =>
    intro h
    obtain ⟨k0, p0⟩ := e
    by_cases hk : k0 = k
    · subst hk
      simp [lookupP] at h
      subst h
      exact List.mem_cons_self _ _
    · simp [lookupP, hk] at h
      exact List.mem_cons_of_mem _ (ih h)

theorem lookupP_eq_none_iff {ps : List (String × SLPlayer)} {k : String} :
    lookupP ps k = none ↔ k ∉ keysP ps := by
  induction ps with
  | nil => simp [lookupP, keysP]
  | cons e t ih =>
    obtain ⟨k0, p0⟩ := e
    by_cases hk : k0 = k
    · subst hk
      simp [lookupP, keysP]
    · have hk2 : ¬ k = k0 := fun he => hk he.symm
      simp [lookupP, keysP, hk, hk2] at ih ⊢
      exact ih

theorem lookupP_isSome_iff {ps : List (String × SLPlayer)} {k : String} :
    (lookupP ps k).isSome ↔ k ∈ keysP ps := by
  rcases h : lookupP ps k with _ | p
  · simpa using lookupP_eq_none_iff.mp h
  · simp only [Option.isSome_some, true_iff]
    exact List.mem_map.mpr ⟨(k, p), lookupP_mem h, rfl⟩

theorem lookupP_of_mem_nodup {ps : List (String × SLPlayer)} {k : String} {p : SLPlayer} :
    (k, p) ∈ ps → (keysP ps).Nodup → lookupP ps k = some p := by
  induction ps with
  | nil => intro h _; simp at h
  | cons e t ih =>
    intro hmem hnd
    obtain ⟨k0, p0⟩ := e
    simp only [keysP, List.map_cons, List.nodup_cons] at hnd
    rcases List.mem_cons.mp hmem with h | h
    · cases h
      simp [lookupP]
    · have hk : ¬ k0 = k := by
        intro he
        subst he
        exact hnd.1 (List.mem_map.mpr ⟨(k0, p), h, rfl⟩)
      simp only [lookupP, if_neg hk]
      exact ih h (by simpa [keysP] using hnd.2)

theorem lookupP_setP_self (ps : List (String × SLPlayer)) (k : String) (v : SLPlayer) :
    lookupP (setP ps k v) k = some v := by
  induction ps with
  | nil => simp [setP, lookupP]
  | cons e t ih =>
    obtain ⟨k0, p0⟩ := e
    by_cases hk : k0 = k
    · simp [setP, hk, lookupP]
    · simp [setP, hk, lookupP, ih]

theorem lookupP_setP_ne {k k2 : String} (ps : List (String × SLPlayer)) (v : SLPlayer)
    (h : k2 ≠ k) : lookupP (setP ps k v) k2 = lookupP ps k2 := by
  induction ps with
  | nil =>
    have hk : ¬ k = k2 := fun he => h he.symm
    simp [setP, lookupP, hk]
  | cons e t ih =>
    obtain ⟨k0, p0⟩ := e
    by_cases hk : k0 = k
    · subst hk
      have hk2 : ¬ k0 = k2 := fun he => h he.symm
      simp [setP, lookupP, hk2]
    · by_cases hk2 : k0 = k2
      · simp [setP, hk, lookupP, hk2, h]
      · simp [setP, hk, lookupP, hk2, ih]

theorem lookupP_eraseP_ne {k k2 : String} (ps : List (String × SLPlayer))
    (h : k2 ≠ k) : lookupP (eraseP ps k) k2 = lookupP ps k2 := by
  induction ps with
  | nil => simp [eraseP]
  | cons e t ih =>
    obtain ⟨k0, p0⟩ := e
    by_cases hk : k0 = k
    · subst hk
      have hk2 : ¬ k0 = k2 := fun he => h he.symm
      simp [eraseP, lookupP, hk2]
    · by_cases hk2 : k0 = k2
      · simp [eraseP, hk, lookupP, hk2, h]
      · simp [eraseP, hk, lookupP, hk2, ih]

theorem lookupP_eraseP_self {ps : List (String × SLPlayer)} {k : String} :
    (keysP ps).Nodup → lookupP (eraseP ps k) k = none := by
  induction ps with
  | nil => intro _; simp [eraseP, lookupP]
  | cons e t ih =>
    intro hnd
    obtain ⟨k0, p0⟩ := e
    simp only [keysP, List.map_cons, List.nodup_cons] at hnd
    by_cases hk : k0 = k
    · subst hk
      simp only [eraseP, if_pos rfl]
      rw [lookupP_eq_none_iff]
      intro hin
      simp only [keysP, List.mem_map] at hin
      obtain ⟨a, ha, hak⟩ := hin
      exact hnd.1 (List.mem_map.mpr ⟨a, ha, hak⟩)
    · simp only [eraseP, if_neg hk, lookupP, if_neg hk]
      exact ih (by simpa [keysP] using hnd.2)

theorem mem_setP {ps : List (String × SLPlayer)} {k : String} {v : SLPlayer}
    {e : String × SLPlayer} : e ∈ setP ps k v → e = (k, v) ∨ e ∈ ps := by
  induction ps with
  | nil => intro h; simp [setP] at h; exact Or.inl h
  | cons e0 t ih =>
    intro h
    obtain ⟨k0, p0⟩ := e0
    by_cases hk : k0 = k
    · simp only [setP, if_pos hk, List.mem_cons] at h
      rcases h with h | h
      · exact Or.inl h
      · exact Or.inr (List.mem_cons_of_mem _ h)
    · simp only [setP, if_neg hk, List.mem_cons] at h
      rcases h with h | h
      · exact Or.inr (List.mem_cons.mpr (Or.inl h))
      · rcases ih h with h | h
        · exact Or.inl h
        · exact Or.inr (List.mem_cons_of_mem _ h)

theorem mem_eraseP {ps : List (String × SLPlayer)} {k : String}
    {e : String × SLPlayer} : e ∈ eraseP ps k → e ∈ ps := by
  induction ps with
  | nil => intro h; simp [eraseP] at h
  | cons e0 t ih =>
    intro h
    obtain ⟨k0, p0⟩ := e0
    by_cases hk : k0 = k
    · simp only [eraseP, if_pos hk] at h
      exact List.mem_cons_of_mem _ h
    · simp only [eraseP, if_neg hk, List.mem_cons] at h
      rcases h with h | h
      · exact List.mem_cons.mpr (Or.inl h)
      · exact List.mem_cons_of_mem _ (ih h)

theorem mem_eraseP_of_ne {ps : List (String × SLPlayer)} {k : String}
    {e : String × SLPlayer} : e ∈ ps → e.1 ≠ k → e ∈ eraseP ps k := by
  induction ps with
  | nil => intro h _; simp at h
  | cons e0 t ih =>
    intro hmem hne
    obtain ⟨k0, p0⟩ := e0
    by_cases hk : k0 = k
    · simp only [eraseP, if_pos hk]
      rcases List.mem_cons.mp hmem with h | h
      · exfalso
        apply hne
        rw [h]
        exact hk
      · exact h
    · simp only [eraseP, if_neg hk, List.mem_cons]
      rcases List.mem_cons.mp hmem with h | h
      · exact Or.inl h
      · exact Or.inr (ih h hne)

theorem keysP_setP_mem {ps : List (String × SLPlayer)} {k : String} (v : SLPlayer) :
    k ∈ keysP ps → keysP (setP ps k v) = keysP ps := by
  induction ps with
  | nil => intro h; simp [keysP] at h
  | cons e t ih =>
    intro h
    obtain ⟨k0, p0⟩ := e
    by_cases hk : k0 = k
    · simp [setP, hk, keysP]
    · have hk2 : ¬ k = k0 := fun he => hk he.symm
      simp only [keysP, List.map_cons, List.mem_cons] at h
      rcases h with h | h
      · exact absurd h hk2
      · simp only [setP, if_neg hk, keysP, List.map_cons]
        rw [show List.map Prod.fst (setP t k v) = keysP (setP t k v) from rfl,
            ih (by simpa [keysP] using h)]
        rfl

theorem keysP_setP_not_mem {ps : List (String × SLPlayer)} {k : String} (v : SLPlayer) :
    k ∉ keysP ps → keysP (setP ps k v) = keysP ps ++ [k] := by
  induction ps with
  | nil => intro _; simp [setP, keysP]
  | cons e t ih =>
    intro h
    obtain ⟨k0, p0⟩ := e
    simp only [keysP, List.map_cons, List.mem_cons] at h
    push_neg at h
    have hk : ¬ k0 = k := fun he => h.1 he.symm
    simp only [setP, if_neg hk, keysP, List.map_cons]
    rw [show List.map Prod.fst (setP t k v) = keysP (setP t k v) from rfl,
        ih (by simpa [keysP] using h.2)]
    rfl

theorem keysP_eraseP_sublist (ps : List (String × SLPlayer)) (k : String) :
    (keysP (eraseP ps k)).Sublist (keysP ps) := by
  induction ps with
  | nil => simp [eraseP]
  | cons e t ih =>
    obtain ⟨k0, p0⟩ := e
    by_cases hk : k0 = k
    · simp only [eraseP, if_pos hk, keysP, List.map_cons]
      exact (List.Sublist.refl _).cons _
    · simp only [eraseP, if_neg hk, keysP, List.map_cons]
      exact ih.cons₂ _

theorem eraseP_sublist (ps : List (String × SLPlayer)) (k : String) :
    (eraseP ps k).Sublist ps := by
  induction ps with
  | nil => simp [eraseP]
  | cons e t ih =>
    obtain ⟨k0, p0⟩ := e
    by_cases hk : k0 = k
    · simp only [eraseP, if_pos hk]
      exact (List.Sublist.refl _).cons _
    · simp only [eraseP, if_neg hk]
      exact ih.cons₂ _

theorem mem_playingEntries {ps : List (String × SLPlayer)} {e : String × SLPlayer} :
    e ∈ playingEntries ps ↔ e ∈ ps ∧ e.2.status = PStatus.playing := by
  simp [playingEntries, List.mem_filter]

theorem mem_playingKeysOf {ps : List (String × SLPlayer)} {k : String} :
    k ∈ playingKeysOf ps ↔ ∃ p, (k, p) ∈ ps ∧ p.status = PStatus.playing := by
  simp only [playingKeysOf, List.mem_map]
  constructor
  · rintro ⟨⟨k1, p⟩, hme, rfl⟩
    obtain ⟨hmem, hst⟩ := mem_playingEntries.mp hme
    exact ⟨p, hmem, hst⟩
  · rintro ⟨p, hmem, hst⟩
    exact ⟨(k, p), mem_playingEntries.mpr ⟨hmem, hst⟩, rfl⟩

theorem lookupP_playing_of_mem_playingKeys {ps : List (String × SLPlayer)} {k : String}
    (hnd : (keysP ps).Nodup) :
    k ∈ playingKeysOf ps → ∃ p, lookupP ps k = some p ∧ p.status = PStatus.playing := by
  intro h
  obtain ⟨p, hmem, hst⟩ := mem_playingKeysOf.mp h
  exact ⟨p, lookupP_of_mem_nodup hmem hnd, hst⟩

theorem playingEntries_length_setP {ps : List (String × SLPlayer)} {k : String}
    {v p : SLPlayer} :
    lookupP ps k = some p → v.status = p.status →
    (playingEntries (setP ps k v)).length = (playingEntries ps).length := by
  induction ps with
  | nil => intro h _; simp [lookupP] at h
  | cons e t ih =>
    intro hl hs
    obtain ⟨k0, p0⟩ := e
    by_cases hk : k0 = k
    · subst hk
      simp [lookupP] at hl
      subst hl
      simp only [setP, if_pos rfl]
      by_cases hp : p0.status = PStatus.playing
      · simp [playingEntries, List.filter_cons, hp, hs]
      · simp [playingEntries, List.filter_cons, hp, hs]
    · simp only [lookupP, if_neg hk] at hl
      simp only [setP, if_neg hk]
      by_cases hp : p0.status = PStatus.playing
      · simp [playingEntries, List.filter_cons, hp]
        exact ih hl hs
      · simp [playingEntries, List.filter_cons, hp]
        exact ih hl hs

theorem range1_concat (n : Nat) :
    List.range' 1 (n + 1) = List.range' 1 n ++ [n + 1] := by
  simpa [Nat.add_comm] using List.range'_1_concat 1 n

theorem advanceSlTurn_ok_spec {g g2 : SLGame} {nm : String} :
    advanceSlTurn g = .ok (some (g2, nm)) →
    g.status = .active ∧
    g2.players = g.players ∧ g2.status = g.status ∧ g2.nextRank = g.nextRank ∧
    g2.host = g.host ∧
    g2.turnOrder = g.turnOrder.filter (fun k => decide (k ∈ playingKeysOf g.players)) ∧
    g2.turnClockSet = true ∧
    g2.currentTurnIndex < g2.turnOrder.length ∧
    g2.currentTurnIndex =
      (if g2.turnOrder.length ≤ g.currentTurnIndex then 0 else g.currentTurnIndex) ∧
    ∃ key p, g2.turnOrder[g2.currentTurnIndex]? = some key ∧
      key ∈ playingKeysOf g.players ∧
      lookupP g.players key = some p ∧ nm = p.username := by
  intro h
  simp only [advanceSlTurn] at h
  split at h
  · simp at h
  next hact =>
    split at h
    · simp at h
    next hak =>
      split at h
      · simp at h
      next hno =>
        split at h
        · simp at h
        next key hkey =>
          split at h
          · simp at h
          next p hp =>
            simp only [Except.ok.injEq, Option.some.injEq, Prod.mk.injEq] at h
            obtain ⟨hg2, hnm⟩ := h
            have hstat : g.status = .active := by
              by_contra hc
              exact hact hc
            subst hg2
            have hfil : (g.turnOrder.filter
                (fun k => decide (k ∈ playingKeysOf g.players))).length ≠ 0 := by
              intro hlen
              exact hno (List.length_eq_zero.mp hlen)
            refine ⟨hstat, rfl, rfl, rfl, rfl, rfl, rfl, ?_, rfl, ?_⟩
            · by_cases hle :
                (g.turnOrder.filter
                  (fun k => decide (k ∈ playingKeysOf g.players))).length ≤
                    g.currentTurnIndex
              · simpa [hle] using Nat.pos_of_ne_zero hfil
              · simpa [hle] using Nat.lt_of_not_le hle
            · refine ⟨key, p, hkey, ?_, hp, hnm.symm⟩
              have hmem : key ∈ g.turnOrder.filter
                  (fun k => decide (k ∈ playingKeysOf g.players)) := by
                exact List.getElem?_mem hkey
              simpa using (List.mem_filter.mp hmem).2

theorem mem_eraseP_key_ne {ps : List (String × SLPlayer)} {k : String}
    {e : String × SLPlayer} (hnd : (keysP ps).Nodup) :
    e ∈ eraseP ps k → e.1 ≠ k := by
  intro hmem he
  subst he
  have h1 : (lookupP (eraseP ps e.1) e.1).isSome :=
    lookupP_isSome_iff.mpr (List.mem_map.mpr ⟨e, hmem, rfl⟩)
  rw [lookupP_eraseP_self hnd] at h1
  simp at h1

theorem tableLookup_mem {l : List (Nat × Nat)} {k v : Nat} :
    tableLookup l k = some v → (k, v) ∈ l := by
  induction l with
  | nil => intro h; simp [tableLookup] at h
  | cons e t ih =>
    intro h
    obtain ⟨k0, v0⟩ := e
    by_cases hk : k0 = k
    · subst hk
      simp [tableLookup] at h
      subst h
      exact List.mem_cons_self _ _
    · simp [tableLookup, hk] at h
      exact List.mem_cons_of_mem _ (ih h)

theorem table_value_bounds :
    ∀ e ∈ SNAKES_AND_LADDERS, 1 ≤ e.2 ∧ e.2 ≤ 98 := by decide

theorem rollFinalPos_bounds {old die : Nat} (h1 : 1 ≤ old) (h2 : 1 ≤ die) :
    1 ≤ rollFinalPos old die ∧ (rollFinalPos old die ≤ 98 ∨ rollFinalPos old die = old + die) := by
  rcases htl : tableLookup SNAKES_AND_LADDERS (old + die) with _ | v
  · simp only [rollFinalPos, htl]
    exact ⟨by omega, Or.inr trivial⟩
  · simp only [rollFinalPos, htl]
    have := table_value_bounds _ (tableLookup_mem htl)
    exact ⟨this.1, Or.inl this.2⟩

/-- Bounds of the recorded position after any roll from a position in
`[1, 99]` with a die in `[1, 6]`. -/
theorem rollRecordedPos_bounds {old die : Nat} (h1 : 1 ≤ old) (h2 : 1 ≤ die) :
    1 ≤ rollRecordedPos old die ∧ rollRecordedPos old die ≤ 100 := by
  obtain ⟨ha, _⟩ := rollFinalPos_bounds h1 h2
  unfold rollRecordedPos
  by_cases hc : 100 ≤ rollFinalPos old die
  · rw [if_pos hc]
    omega
  · rw [if_neg hc]
    omega

/-- The well-formed-game consequences of a successful `advance_sl_turn`,
for an input game whose player dict is well-formed. -/
theorem advance_preserves_GameWF {g g2 : SLGame} {nm : String} {n : Nat}
    (hnd : (keysP g.players).Nodup)
    (hconv : ∀ e ∈ g.players, e.2.status = PStatus.playing → e.1 ∈ g.turnOrder)
    (hpo : ∀ e ∈ g.players, PlayerOK e.2)
    (hnr : g.nextRank = n + 1)
    (hcnt : 2 ≤ (playingEntries g.players).length)
    (h : advanceSlTurn g = .ok (some (g2, nm))) : GameWF g2 n := by
  obtain ⟨hact, hpl, hst, hnr2, _, hord, _, hlt, _, _⟩ := advanceSlTurn_ok_spec h
  refine ⟨by rw [hnr2]; exact hnr, by rw [hpl]; exact hnd, ?_, ?_, ?_, ?_, ?_⟩
  · intro k hk
    rw [hord] at hk
    have hkp : k ∈ playingKeysOf g.players := by
      simpa using (List.mem_filter.mp hk).2
    rw [hpl]
    exact lookupP_playing_of_mem_playingKeys hnd hkp
  · intro _ e he hep
    rw [hpl] at he
    rw [hord]
    refine List.mem_filter.mpr ⟨hconv e he hep, ?_⟩
    simp only [decide_eq_true_eq]
    exact mem_playingKeysOf.mpr ⟨e.2, by simpa using he, hep⟩
  · intro _
    rw [hpl]
    exact hcnt
  · intro e he
    rw [hpl] at he
    exact hpo e he
  · intro hlb
    rw [hst, hact] at hlb
    cases hlb

theorem slOpenLobby_WF {host : String} {gs gs2 : GState} {ms : List Msg}
    (hwf : WF gs) (h : slOpenLobby host gs = .ok (gs2, ms)) : WF gs2 := by
  unfold slOpenLobby at h
  rcases hg : gs.game with _ | g
  · rw [hg] at h
    simp only [Except.ok.injEq, Prod.mk.injEq] at h
    obtain ⟨h1, _⟩ := h
    subst h1
    refine ⟨by simp, ?_⟩
    intro g hgame
    simp only [Option.some.injEq] at hgame
    subst hgame
    refine ⟨rfl, by simp [keysP], ?_, ?_, ?_, ?_, ?_⟩
    · intro k hk; simp at hk
    · intro hact; cases hact
    · intro hact; cases hact
    · intro e he; simp at he
    · exact fun _ => ⟨rfl, rfl, fun e he => by simp at he⟩
  · rw [hg] at h
    simp only [Except.ok.injEq, Prod.mk.injEq] at h
    obtain ⟨h1, _⟩ := h
    subst h1
    exact hwf

theorem slCloseGame_WF {gs gs2 : GState} {ms : List Msg}
    (hwf : WF gs) (h : slCloseGame gs = .ok (gs2, ms)) : WF gs2 := by
  unfold slCloseGame at h
  rcases hg : gs.game with _ | g
  · rw [hg] at h
    simp only [Except.ok.injEq, Prod.mk.injEq] at h
    obtain ⟨h1, _⟩ := h
    subst h1
    exact hwf
  · rw [hg] at h
    simp only [Except.ok.injEq, Prod.mk.injEq] at h
    obtain ⟨h1, _⟩ := h
    subst h1
    exact ⟨hwf.1, by intro g hgame; simp at hgame⟩

theorem WF_of_same {gs gs2 : GState} (hwf : WF gs)
    (hgame : gs2.game = gs.game) (hevs : gs2.rankEvents = gs.rankEvents) : WF gs2 := by
  constructor
  · rw [hevs]; exact hwf.1
  · intro g hg
    rw [hgame] at hg
    rw [hevs]
    exact hwf.2 g hg

theorem slJoinReq_WF {u : String} {gs gs2 : GState} {ms : List Msg}
    (hwf : WF gs) (h : slJoinReq u gs = .ok (gs2, ms)) : WF gs2 := by
  unfold slJoinReq at h
  split at h
  · simp only [Except.ok.injEq, Prod.mk.injEq] at h
    obtain ⟨h1, _⟩ := h
    subst h1
    exact hwf
  next g hsome =>
    by_cases h1 : g.status ≠ .lobby
    · rw [if_pos h1] at h
      simp only [Except.ok.injEq, Prod.mk.injEq] at h
      obtain ⟨h4, _⟩ := h
      subst h4
      exact hwf
    · rw [if_neg h1] at h
      by_cases h2 : (lookupP g.players u).isSome
      · rw [if_pos h2] at h
        simp only [Except.ok.injEq, Prod.mk.injEq] at h
        obtain ⟨h4, _⟩ := h
        subst h4
        exact hwf
      · rw [if_neg h2] at h
        by_cases h3 : 10 ≤ g.players.length
        · rw [if_pos h3] at h
          simp only [Except.ok.injEq, Prod.mk.injEq] at h
          obtain ⟨h4, _⟩ := h
          subst h4
          exact hwf
        · rw [if_neg h3] at h
          simp only [Except.ok.injEq, Prod.mk.injEq] at h
          obtain ⟨h4, _⟩ := h
          subst h4
          exact WF_of_same hwf rfl rfl

theorem slResolveJoin_WF {u : String} {uid : Option Nat} {gs gs2 : GState} {ms : List Msg}
    (hwf : WF gs) (h : slResolveJoin u uid gs = .ok (gs2, ms)) : WF gs2 := by
  unfold slResolveJoin at h
  by_cases h0 : u ∈ gs.pendingJoins
  · rw [if_pos h0] at h
    split at h
    next g hsome =>
      by_cases h1 : g.status = .lobby
      · rw [if_pos h1] at h
        simp only [Except.ok.injEq, Prod.mk.injEq] at h
        obtain ⟨h4, _⟩ := h
        subst h4
        refine ⟨hwf.1, ?_⟩
        intro g2 hg2
        simp only [Option.some.injEq] at hg2
        subst hg2
        obtain ⟨hnr, hnd, hto, hconv, hcnt, hpo, hlob⟩ := hwf.2 g hsome
        obtain ⟨hord0, hidx0, hallp⟩ := hlob h1
        refine ⟨hnr, ?_, ?_, ?_, ?_, ?_, ?_⟩
        · by_cases hu : u ∈ keysP g.players
          · rw [keysP_setP_mem _ hu]
            exact hnd
          · rw [keysP_setP_not_mem _ hu]
            simp only [List.nodup_append, List.nodup_cons, List.not_mem_nil,
              not_false_eq_true, List.nodup_nil, and_true, true_and]
            refine ⟨hnd, ?_⟩
            intro a ha hb
            simp only [List.mem_singleton] at hb
            subst hb
            exact hu ha
        · intro k hk
          simp only [hord0] at hk
          simp at hk
        · intro hact
          rw [h1] at hact
          simp at hact
        · intro hact
          rw [h1] at hact
          simp at hact
        · intro e he
          rcases mem_setP he with he2 | he2
          · subst he2
            exact ⟨by norm_num, fun _ => by norm_num, by norm_num⟩
          · exact hpo e he2
        · intro _
          refine ⟨hord0, hidx0, ?_⟩
          intro e he
          rcases mem_setP he with he2 | he2
          · subst he2
            exact ⟨rfl, rfl⟩
          · exact hallp e he2
      · rw [if_neg h1] at h
        simp only [Except.ok.injEq, Prod.mk.injEq] at h
        obtain ⟨h4, _⟩ := h
        subst h4
        exact WF_of_same hwf rfl rfl
    next hnone =>
      simp only [Except.ok.injEq, Prod.mk.injEq] at h
      obtain ⟨h4, _⟩ := h
      subst h4
      exact WF_of_same hwf rfl rfl
  · rw [if_neg h0] at h
    simp only [Except.ok.injEq, Prod.mk.injEq] at h
    obtain ⟨h4, _⟩ := h
    subst h4
    exact hwf

theorem slStart_WF {requester : String} {perm : List String} {gs gs2 : GState} {ms : List Msg}
    (hwf : WF gs) (h : slStart requester perm gs = .ok (gs2, ms)) : WF gs2 := by
  unfold slStart at h
  split at h
  · simp only [Except.ok.injEq, Prod.mk.injEq] at h
    obtain ⟨h4, _⟩ := h
    subst h4
    exact hwf
  next g hsome =>
    by_cases h1 : requester ≠ g.host
    · rw [if_pos h1] at h
      simp only [Except.ok.injEq, Prod.mk.injEq] at h
      obtain ⟨h4, _⟩ := h
      subst h4
      exact hwf
    · rw [if_neg h1] at h
      by_cases h2 : g.status ≠ .lobby
      · rw [if_pos h2] at h
        simp only [Except.ok.injEq, Prod.mk.injEq] at h
        obtain ⟨h4, _⟩ := h
        subst h4
        exact hwf
      · rw [if_neg h2] at h
        by_cases h3 : g.players.length < 2
        · rw [if_pos h3] at h
          simp only [Except.ok.injEq, Prod.mk.injEq] at h
          obtain ⟨h4, _⟩ := h
          subst h4
          exact hwf
        · rw [if_neg h3] at h
          split at h
          · simp only [Except.ok.injEq, Prod.mk.injEq] at h
            obtain ⟨h4, _⟩ := h
            subst h4
            exact hwf
          next hfind =>
            by_cases hp : perm.Perm (keysP g.players)
            · rw [dif_pos hp] at h
              split at h
              · simp at h
              next k0 hk0 =>
                split at h
                · simp at h
                next p0 hp0 =>
                  simp only [Except.ok.injEq, Prod.mk.injEq] at h
                  obtain ⟨h4, _⟩ := h
                  subst h4
                  push_neg at h2
                  obtain ⟨hnr, hnd, hto, hconv, hcnt, hpo, hlob⟩ := hwf.2 g hsome
                  obtain ⟨hord0, hidx0, hallp⟩ := hlob h2
                  refine ⟨hwf.1, ?_⟩
                  intro g2 hg2
                  simp only [Option.some.injEq] at hg2
                  subst hg2
                  refine ⟨hnr, hnd, ?_, ?_, ?_, hpo, ?_⟩
                  · intro k hk
                    have hkk : k ∈ keysP g.players := hp.mem_iff.mp hk
                    obtain ⟨p, hpp⟩ := Option.isSome_iff_exists.mp
                      (lookupP_isSome_iff.mpr hkk)
                    exact ⟨p, hpp, (hallp (k, p) (lookupP_mem hpp)).1⟩
                  · intro _ e he hep
                    exact hp.mem_iff.mpr (List.mem_map.mpr ⟨e, he, rfl⟩)
                  · intro _
                    have : playingEntries g.players = g.players :=
                      List.filter_eq_self.mpr
                        (fun e he => decide_eq_true (hallp e he).1)
                    rw [this]
                    omega
                  · intro hlb
                    simp at hlb
            · rw [dif_neg hp] at h
              simp at h

theorem slAfterRollCore_WF {gs gs2 : GState} {g : SLGame} {ms ms2 : List Msg}
    (hranks : gs.rankEvents.map Prod.snd = List.range' 1 gs.rankEvents.length)
    (hnd : (keysP g.players).Nodup)
    (hconv : ∀ e ∈ g.players, e.2.status = PStatus.playing → e.1 ∈ g.turnOrder)
    (hpo : ∀ e ∈ g.players, PlayerOK e.2)
    (hnr : g.nextRank = gs.rankEvents.length + 1)
    (h : slAfterRollCore gs g ms = .ok (gs2, ms2)) : WF gs2 := by
  simp only [slAfterRollCore] at h
  by_cases hc1 : (playingEntries g.players).length ≤ 1
  · rw [if_pos hc1] at h
    by_cases hc2 : (playingEntries g.players).length = 1
    · rw [if_pos hc2] at h
      split at h
      · simp at h
      next e hfind =>
        simp only [Except.ok.injEq, Prod.mk.injEq] at h
        obtain ⟨h4, _⟩ := h
        subst h4
        constructor
        · simp only [List.map_append, List.map_cons, List.map_nil, List.length_append,
            List.length_cons, List.length_nil]
          rw [hranks, hnr]
          exact (range1_concat _).symm
        · intro g2 hg2
          simp at hg2
    · rw [if_neg hc2] at h
      simp only [Except.ok.injEq, Prod.mk.injEq] at h
      obtain ⟨h4, _⟩ := h
      subst h4
      exact ⟨hranks, fun g2 hg2 => by simp at hg2⟩
  · rw [if_neg hc1] at h
    split at h
    · simp at h
    next hadv =>
      simp only [Except.ok.injEq, Prod.mk.injEq] at h
      obtain ⟨h4, _⟩ := h
      subst h4
      exact ⟨hranks, fun g2 hg2 => by simp at hg2⟩
    next g2 nm hadv =>
      simp only [Except.ok.injEq, Prod.mk.injEq] at h
      obtain ⟨h4, _⟩ := h
      subst h4
      refine ⟨hranks, ?_⟩
      intro g3 hg3
      simp only [Option.some.injEq] at hg3
      subst hg3
      exact advance_preserves_GameWF hnd hconv hpo hnr (by omega) hadv

theorem slRoll_WF {u : String} {die : Nat} {gs gs2 : GState} {ms : List Msg}
    (hwf : WF gs) (h : slRoll u die gs = .ok (gs2, ms)) : WF gs2 := by
  simp only [slRoll] at h
  split at h
  · simp only [Except.ok.injEq, Prod.mk.injEq] at h
    obtain ⟨h4, _⟩ := h
    subst h4
    exact hwf
  next g hsome =>
    by_cases h1 : g.status ≠ .active
    · rw [if_pos h1] at h
      simp only [Except.ok.injEq, Prod.mk.injEq] at h
      obtain ⟨h4, _⟩ := h
      subst h4
      exact hwf
    · rw [if_neg h1] at h
      push_neg at h1
      split at h
      · simp at h
      next cur hcur =>
        by_cases h2 : u ≠ cur
        · rw [if_pos h2] at h
          simp only [Except.ok.injEq, Prod.mk.injEq] at h
          obtain ⟨h4, _⟩ := h
          subst h4
          exact hwf
        · rw [if_neg h2] at h
          push_neg at h2
          by_cases h3 : ¬ (1 ≤ die ∧ die ≤ 6)
          · rw [if_pos h3] at h
            simp at h
          · rw [if_neg h3] at h
            have h3' := not_not.mp h3
            split at h
            · simp at h
            next p hp =>
              obtain ⟨hnr, hnd, hto, hconvG, hcnt, hpo, hlob⟩ := hwf.2 g hsome
              have hmem := lookupP_mem hp
              have hppos := hpo (u, p) hmem
              have hu : u ∈ keysP g.players :=
                lookupP_isSome_iff.mp (by rw [hp]; rfl)
              have hcurmem : cur ∈ g.turnOrder := List.getElem?_mem hcur
              by_cases h4 : 100 ≤ rollFinalPos p.position die
              · rw [if_pos h4] at h
                simp only [slAfterRoll] at h
                have hranks2 : (gs.rankEvents ++ [(u, g.nextRank)]).map Prod.snd =
                    List.range' 1 ((gs.rankEvents ++ [(u, g.nextRank)]).length) := by
                  simp only [List.map_append, List.map_cons, List.map_nil,
                    List.length_append, List.length_cons, List.length_nil]
                  rw [hwf.1, hnr]
                  exact (range1_concat _).symm
                have hnd2 : (keysP (setP g.players u
                    { p with position := 100, status := PStatus.finished,
                             rank := g.nextRank })).Nodup := by
                  rw [keysP_setP_mem _ hu]
                  exact hnd
                have hconv2 : ∀ e ∈ setP g.players u
                    { p with position := 100, status := PStatus.finished,
                             rank := g.nextRank },
                    e.2.status = PStatus.playing → e.1 ∈ g.turnOrder := by
                  intro e he hep
                  rcases mem_setP he with he2 | he2
                  · subst he2
                    simp at hep
                  · exact hconvG h1 e he2 hep
                have hpo2 : ∀ e ∈ setP g.players u
                    { p with position := 100, status := PStatus.finished,
                             rank := g.nextRank }, PlayerOK e.2 := by
                  intro e he
                  rcases mem_setP he with he2 | he2
                  · subst he2
                    simp [PlayerOK]
                  · exact hpo e he2
                have hnr2 : g.nextRank + 1 =
                    (gs.rankEvents ++ [(u, g.nextRank)]).length + 1 := by
                  simp [hnr]
                refine slAfterRollCore_WF ?_ ?_ ?_ ?_ ?_ h
                · exact hranks2
                · exact hnd2
                · exact hconv2
                · exact hpo2
                · exact hnr2
              · rw [if_neg h4] at h
                simp only [slAfterRoll] at h
                have hnd2 : (keysP (setP g.players u
                    { p with position := rollFinalPos p.position die })).Nodup := by
                  rw [keysP_setP_mem _ hu]
                  exact hnd
                have hconv2 : ∀ e ∈ setP g.players u
                    { p with position := rollFinalPos p.position die },
                    e.2.status = PStatus.playing → e.1 ∈ g.turnOrder := by
                  intro e he hep
                  rcases mem_setP he with he2 | he2
                  · subst he2
                    rw [h2]
                    exact hcurmem
                  · exact hconvG h1 e he2 hep
                have hpo2 : ∀ e ∈ setP g.players u
                    { p with position := rollFinalPos p.position die }, PlayerOK e.2 := by
                  intro e he
                  rcases mem_setP he with he2 | he2
                  · subst he2
                    have hb := rollFinalPos_bounds hppos.1 h3'.1
                    simp only [PlayerOK]
                    refine ⟨hb.1, fun _ => by omega, by omega⟩
                  · exact hpo e he2
                refine slAfterRollCore_WF ?_ ?_ ?_ ?_ ?_ h
                · exact hwf.1
                · exact hnd2
                · exact hconv2
                · exact hpo2
                · exact hnr

theorem slQuit_WF {u : String} {gs gs2 : GState} {ms : List Msg}
    (hwf : WF gs) (h : slQuit u gs = .ok (gs2, ms)) : WF gs2 := by
  simp only [slQuit] at h
  split at h
  · simp only [Except.ok.injEq, Prod.mk.injEq] at h
    obtain ⟨h4, _⟩ := h
    subst h4
    exact hwf
  next g hsome =>
    by_cases h1 : g.status ≠ .active ∨ (lookupP g.players u).isNone
    · rw [if_pos h1] at h
      simp only [Except.ok.injEq, Prod.mk.injEq] at h
      obtain ⟨h4, _⟩ := h
      subst h4
      exact hwf
    · rw [if_neg h1] at h
      have h1a : g.status = .active := by
        by_contra hc
        exact h1 (Or.inl hc)
      split at h
      · simp at h
      next cur hcur =>
        obtain ⟨hnr, hnd, hto, hconvG, hcnt, hpo, hlob⟩ := hwf.2 g hsome
        have hnd2 : (keysP (eraseP g.players u)).Nodup :=
          (keysP_eraseP_sublist _ _).nodup hnd
        have hconv2 : ∀ e ∈ eraseP g.players u, e.2.status = PStatus.playing →
            e.1 ∈ g.turnOrder.filter (fun k => decide (k ≠ u)) := by
          intro e he hep
          have hne := mem_eraseP_key_ne hnd he
          exact List.mem_filter.mpr
            ⟨hconvG h1a e (mem_eraseP he) hep, by simpa using hne⟩
        have hpo2 : ∀ e ∈ eraseP g.players u, PlayerOK e.2 :=
          fun e he => hpo e (mem_eraseP he)
        by_cases hlt : (playingEntries (eraseP g.players u)).length < 2
        · rw [if_pos hlt] at h
          simp only [Except.ok.injEq, Prod.mk.injEq] at h
          obtain ⟨h4, _⟩ := h
          subst h4
          exact ⟨hwf.1, fun g4 hg4 => by simp at hg4⟩
        · rw [if_neg hlt] at h
          by_cases hwt : cur = u
          · rw [if_pos hwt] at h
            split at h
            · simp at h
            next hadv =>
              simp only [Except.ok.injEq, Prod.mk.injEq] at h
              obtain ⟨h4, _⟩ := h
              subst h4
              exact ⟨hwf.1, fun g4 hg4 => by simp at hg4⟩
            next g3 nm hadv =>
              simp only [Except.ok.injEq, Prod.mk.injEq] at h
              obtain ⟨h4, _⟩ := h
              subst h4
              refine ⟨hwf.1, ?_⟩
              intro g4 hg4
              simp only [Option.some.injEq] at hg4
              subst hg4
              refine advance_preserves_GameWF ?_ ?_ ?_ ?_ ?_ hadv
              · exact hnd2
              · exact hconv2
              · exact hpo2
              · exact hnr
              · exact Nat.le_of_not_lt hlt
          · rw [if_neg hwt] at h
            simp only [Except.ok.injEq, Prod.mk.injEq] at h
            obtain ⟨h4, _⟩ := h
            subst h4
            refine ⟨hwf.1, ?_⟩
            intro g4 hg4
            simp only [Option.some.injEq] at hg4
            subst hg4
            refine ⟨hnr, hnd2, ?_, ?_, ?_, hpo2, ?_⟩
            · intro k hk
              have hk1 := List.mem_filter.mp hk
              have hkne : k ≠ u := by simpa using hk1.2
              obtain ⟨q, hq, hqs⟩ := hto k hk1.1
              exact ⟨q, by rw [lookupP_eraseP_ne _ hkne]; exact hq, hqs⟩
            · intro _ e he hep
              exact hconv2 e he hep
            · intro _
              exact Nat.le_of_not_lt hlt
            · intro hlb
              rw [h1a] at hlb
              cases hlb

theorem slKick_WF {actor : String} {isMaster : Bool} {target : String}
    {gs gs2 : GState} {ms : List Msg}
    (hwf : WF gs) (h : slKick actor isMaster target gs = .ok (gs2, ms)) : WF gs2 := by
  simp only [slKick] at h
  split at h
  · simp only [Except.ok.injEq, Prod.mk.injEq] at h
    obtain ⟨h4, _⟩ := h
    subst h4
    exact hwf
  next g hsome =>
    by_cases h1 : g.status ≠ .active
    · rw [if_pos h1] at h
      simp only [Except.ok.injEq, Prod.mk.injEq] at h
      obtain ⟨h4, _⟩ := h
      subst h4
      exact hwf
    · rw [if_neg h1] at h
      push_neg at h1
      by_cases h0 : ¬ isMaster ∧ actor ≠ g.host
      · rw [if_pos h0] at h
        simp only [Except.ok.injEq, Prod.mk.injEq] at h
        obtain ⟨h4, _⟩ := h
        subst h4
        exact hwf
      · rw [if_neg h0] at h
        by_cases h2 : (lookupP g.players target).isNone
        · rw [if_pos h2] at h
          simp only [Except.ok.injEq, Prod.mk.injEq] at h
          obtain ⟨h4, _⟩ := h
          subst h4
          exact hwf
        · rw [if_neg h2] at h
          split at h
          · simp at h
          next cur hcur =>
            obtain ⟨hnr, hnd, hto, hconvG, hcnt, hpo, hlob⟩ := hwf.2 g hsome
            have hnd2 : (keysP (eraseP g.players target)).Nodup :=
              (keysP_eraseP_sublist _ _).nodup hnd
            have hconv2 : ∀ e ∈ eraseP g.players target, e.2.status = PStatus.playing →
                e.1 ∈ g.turnOrder.filter (fun k => decide (k ≠ target)) := by
              intro e he hep
              have hne := mem_eraseP_key_ne hnd he
              exact List.mem_filter.mpr
                ⟨hconvG h1 e (mem_eraseP he) hep, by simpa using hne⟩
            have hpo2 : ∀ e ∈ eraseP g.players target, PlayerOK e.2 :=
              fun e he => hpo e (mem_eraseP he)
            by_cases hlt : (playingEntries (eraseP g.players target)).length < 2
            · rw [if_pos hlt] at h
              simp only [Except.ok.injEq, Prod.mk.injEq] at h
              obtain ⟨h4, _⟩ := h
              subst h4
              exact ⟨hwf.1, fun g4 hg4 => by simp at hg4⟩
            · rw [if_neg hlt] at h
              by_cases hwt : cur = target
              · rw [if_pos hwt] at h
                split at h
                · simp at h
                next hadv =>
                  simp only [Except.ok.injEq, Prod.mk.injEq] at h
                  obtain ⟨h4, _⟩ := h
                  subst h4
                  exact ⟨hwf.1, fun g4 hg4 => by simp at hg4⟩
                next g3 nm hadv =>
                  simp only [Except.ok.injEq, Prod.mk.injEq] at h
                  obtain ⟨h4, _⟩ := h
                  subst h4
                  refine ⟨hwf.1, ?_⟩
                  intro g4 hg4
                  simp only [Option.some.injEq] at hg4
                  subst hg4
                  refine advance_preserves_GameWF ?_ ?_ ?_ ?_ ?_ hadv
                  · exact hnd2
                  · exact hconv2
                  · exact hpo2
                  · exact hnr
                  · exact Nat.le_of_not_lt hlt
              · rw [if_neg hwt] at h
                simp only [Except.ok.injEq, Prod.mk.injEq] at h
                obtain ⟨h4, _⟩ := h
                subst h4
                refine ⟨hwf.1, ?_⟩
                intro g4 hg4
                simp only [Option.some.injEq] at hg4
                subst hg4
                refine ⟨hnr, hnd2, ?_, ?_, ?_, hpo2, ?_⟩
                · intro k hk
                  have hk1 := List.mem_filter.mp hk
                  have hkne : k ≠ target := by simpa using hk1.2
                  obtain ⟨q, hq, hqs⟩ := hto k hk1.1
                  exact ⟨q, by rw [lookupP_eraseP_ne _ hkne]; exact hq, hqs⟩
                · intro _ e he hep
                  exact hconv2 e he hep
                · intro _
                  exact Nat.le_of_not_lt hlt
                · intro hlb
                  rw [h1] at hlb
                  cases hlb

theorem slSweep_WF {elapsed : Nat} {gs gs2 : GState} {ms : List Msg}
    (hwf : WF gs) (h : slSweep elapsed gs = .ok (gs2, ms)) : WF gs2 := by
  simp only [slSweep] at h
  split at h
  · simp only [Except.ok.injEq, Prod.mk.injEq] at h
    obtain ⟨h4, _⟩ := h
    subst h4
    exact hwf
  next g hsome =>
    by_cases h1 : g.status ≠ .active ∨ g.turnClockSet = false
    · rw [if_pos h1] at h
      simp only [Except.ok.injEq, Prod.mk.injEq] at h
      obtain ⟨h4, _⟩ := h
      subst h4
      exact hwf
    · rw [if_neg h1] at h
      have h1a : g.status = .active := by
        by_contra hc
        exact h1 (Or.inl hc)
      by_cases h2 : g.turnOrder.length ≤ g.currentTurnIndex
      · rw [if_pos h2] at h
        simp only [Except.ok.injEq, Prod.mk.injEq] at h
        obtain ⟨h4, _⟩ := h
        subst h4
        exact hwf
      · rw [if_neg h2] at h
        split at h
        · simp at h
        next cur hcur =>
          split at h
          · simp only [Except.ok.injEq, Prod.mk.injEq] at h
            obtain ⟨h4, _⟩ := h
            subst h4
            exact hwf
          next p hp =>
            by_cases h3 : p.status ≠ .playing
            · rw [if_pos h3] at h
              simp only [Except.ok.injEq, Prod.mk.injEq] at h
              obtain ⟨h4, _⟩ := h
              subst h4
              exact hwf
            · rw [if_neg h3] at h
              obtain ⟨hnr, hnd, hto, hconvG, hcnt, hpo, hlob⟩ := hwf.2 g hsome
              by_cases h5 : 15 < elapsed ∧ g.warn1 = false
              · rw [if_pos h5] at h
                simp only [Except.ok.injEq, Prod.mk.injEq] at h
                obtain ⟨h4, _⟩ := h
                subst h4
                refine ⟨hwf.1, ?_⟩
                intro g4 hg4
                simp only [Option.some.injEq] at hg4
                subst hg4
                exact ⟨hnr, hnd, hto, fun _ => hconvG h1a, fun _ => hcnt h1a, hpo,
                  fun hlb => by rw [h1a] at hlb; cases hlb⟩
              · rw [if_neg h5] at h
                by_cases h6 : 30 < elapsed ∧ g.warn2 = false
                · rw [if_pos h6] at h
                  simp only [Except.ok.injEq, Prod.mk.injEq] at h
                  obtain ⟨h4, _⟩ := h
                  subst h4
                  refine ⟨hwf.1, ?_⟩
                  intro g4 hg4
                  simp only [Option.some.injEq] at hg4
                  subst hg4
                  exact ⟨hnr, hnd, hto, fun _ => hconvG h1a, fun _ => hcnt h1a, hpo,
                    fun hlb => by rw [h1a] at hlb; cases hlb⟩
                · rw [if_neg h6] at h
                  by_cases h7 : SL_TURN_DURATION_SECONDS < elapsed
                  · rw [if_pos h7] at h
                    have hnd2 : (keysP (eraseP g.players cur)).Nodup :=
                      (keysP_eraseP_sublist _ _).nodup hnd
                    have hconv2 : ∀ e ∈ eraseP g.players cur,
                        e.2.status = PStatus.playing →
                        e.1 ∈ g.turnOrder.filter (fun k => decide (k ≠ cur)) := by
                      intro e he hep
                      have hne := mem_eraseP_key_ne hnd he
                      exact List.mem_filter.mpr
                        ⟨hconvG h1a e (mem_eraseP he) hep, by simpa using hne⟩
                    have hpo2 : ∀ e ∈ eraseP g.players cur, PlayerOK e.2 :=
                      fun e he => hpo e (mem_eraseP he)
                    by_cases hc1 : (playingEntries (eraseP g.players cur)).length ≤ 1
                    · rw [if_pos hc1] at h
                      by_cases hc2 : (playingEntries (eraseP g.players cur)).length = 1
                      · rw [if_pos hc2] at h
                        split at h
                        · simp at h
                        next e hfind =>
                          simp only [Except.ok.injEq, Prod.mk.injEq] at h
                          obtain ⟨h4, _⟩ := h
                          subst h4
                          constructor
                          · simp only [List.map_append, List.map_cons, List.map_nil,
                              List.length_append, List.length_cons, List.length_nil]
                            rw [hwf.1, hnr]
                            exact (range1_concat _).symm
                          · intro g4 hg4
                            simp at hg4
                      · rw [if_neg hc2] at h
                        simp only [Except.ok.injEq, Prod.mk.injEq] at h
                        obtain ⟨h4, _⟩ := h
                        subst h4
                        exact ⟨hwf.1, fun g4 hg4 => by simp at hg4⟩
                    · rw [if_neg hc1] at h
                      split at h
                      · simp at h
                      next hadv =>
                        simp only [Except.ok.injEq, Prod.mk.injEq] at h
                        obtain ⟨h4, _⟩ := h
                        subst h4
                        exact ⟨hwf.1, fun g4 hg4 => by simp at hg4⟩
                      next g3 nm hadv =>
                        simp only [Except.ok.injEq, Prod.mk.injEq] at h
                        obtain ⟨h4, _⟩ := h
                        subst h4
                        refine ⟨hwf.1, ?_⟩
                        intro g4 hg4
                        simp only [Option.some.injEq] at hg4
                        subst hg4
                        refine advance_preserves_GameWF ?_ ?_ ?_ ?_ ?_ hadv
                        · exact hnd2
                        · exact hconv2
                        · exact hpo2
                        · exact hnr
                        · exact Nat.lt_of_not_le hc1
                  · rw [if_neg h7] at h
                    simp only [Except.ok.injEq, Prod.mk.injEq] at h
                    obtain ⟨h4, _⟩ := h
                    subst h4
                    exact hwf

theorem slStep_WF {op : SLOp} {gs gs2 : GState} {ms : List Msg}
    (hwf : WF gs) (h : slStep op gs = .ok (gs2, ms)) : WF gs2 := by
  cases op with
  | openLobby host => exact slOpenLobby_WF hwf h
  | closeGame => exact slCloseGame_WF hwf h
  | joinReq u => exact slJoinReq_WF hwf h
  | resolveJoin u uid => exact slResolveJoin_WF hwf h
  | start requester perm => exact slStart_WF hwf h
  | roll u die => exact slRoll_WF hwf h
  | quit u => exact slQuit_WF hwf h
  | kick actor isMaster target => exact slKick_WF hwf h
  | sweep elapsed => exact slSweep_WF hwf h

theorem WF_init : WF { } := by
  constructor
  · rfl
  · intro g hg
    simp at hg

theorem runSLFrom_WF {l : List SLOp} {gs gs2 : GState}
    (hwf : WF gs) (h : runSLFrom gs l = .ok gs2) : WF gs2 := by
  induction l generalizing gs with
  | nil =>
    simp only [runSLFrom, Except.ok.injEq] at h
    subst h
    exact hwf
  | cons op t ih =>
    simp only [runSLFrom] at h
    split at h
    · simp at h
    next gs1 ms1 hstep =>
      exact ih (slStep_WF hwf hstep) h

/-- Every reachable room state is well-formed. -/
theorem SLReach_WF {gs : GState} (h : SLReach gs) : WF gs := by
  obtain ⟨l, hl⟩ := h
  exact runSLFrom_WF WF_init hl

/-! ## Emoji Duel invariant preservation -/

theorem endDuelCore_fst (d : DuelGame) (c : Bool) : (endDuelCore d c).1 = none := by
  unfold endDuelCore
  by_cases hc : c = true
  · simp [hc]
  · simp [hc]

theorem startDuelRound_WF {d : DuelGame} {r : Nat} {ds2 : Option DuelGame}
    {target : String} {ms : List Msg}
    (hact : d.status = .active) (hr : d.round = some r)
    (h : startDuelRound (some d) target = .ok (ds2, ms)) : DuelWF ds2 := by
  simp only [startDuelRound, hr] at h
  by_cases hend : r + 1 > 5 ∨ 3 ≤ d.p1.score ∨ 3 ≤ d.p2.score
  · rw [if_pos hend] at h
    simp only [Except.ok.injEq] at h
    have h5 := congrArg Prod.fst h
    simp only [endDuelOp, endDuelCore_fst] at h5
    rw [← h5]
    trivial
  · rw [if_neg hend] at h
    simp only [Except.ok.injEq, Prod.mk.injEq] at h
    obtain ⟨h4, _⟩ := h
    subst h4
    push_neg at hend
    constructor
    · intro hp
      have hp2 : d.status = .pending := hp
      rw [hact] at hp2
      cases hp2
    · intro _
      refine ⟨r + 1, rfl, by omega, by omega, ?_, ?_⟩
      · exact show d.p1.score ≤ 2 by omega
      · exact show d.p2.score ≤ 2 by omega

theorem duelStep_WF {op : DuelOp} {ds ds2 : Option DuelGame} {ms : List Msg}
    (hwf : DuelWF ds) (h : duelStep op ds = .ok (ds2, ms)) : DuelWF ds2 := by
  cases op with
  | challenge ch opp =>
    cases ds with
    | some d =>
      simp only [duelStep, Except.ok.injEq, Prod.mk.injEq] at h
      obtain ⟨h4, _⟩ := h
      subst h4
      exact hwf
    | none =>
      simp only [duelStep] at h
      by_cases hc : pyLower ch = pyLower opp
      · rw [if_pos hc] at h
        simp only [Except.ok.injEq, Prod.mk.injEq] at h
        obtain ⟨h4, _⟩ := h
        subst h4
        exact hwf
      · rw [if_neg hc] at h
        simp only [Except.ok.injEq, Prod.mk.injEq] at h
        obtain ⟨h4, _⟩ := h
        subst h4
        exact ⟨fun _ => ⟨rfl, rfl, rfl⟩, fun ha => by cases ha⟩
  | accept s target =>
    cases ds with
    | none =>
      simp only [duelStep, Except.ok.injEq, Prod.mk.injEq] at h
      obtain ⟨h4, _⟩ := h
      subst h4
      exact hwf
    | some d =>
      simp only [duelStep] at h
      by_cases h1 : d.status = .pending
      · rw [if_pos h1] at h
        by_cases h2 : pyLower s = pyLower d.p2.name
        · rw [if_pos h2] at h
          split at h
          · simp at h
          next ds3 ms3 hstart =>
            simp only [Except.ok.injEq, Prod.mk.injEq] at h
            obtain ⟨h4, _⟩ := h
            subst h4
            exact startDuelRound_WF rfl rfl hstart
        · rw [if_neg h2] at h
          simp only [Except.ok.injEq, Prod.mk.injEq] at h
          obtain ⟨h4, _⟩ := h
          subst h4
          exact hwf
      · rw [if_neg h1] at h
        simp only [Except.ok.injEq, Prod.mk.injEq] at h
        obtain ⟨h4, _⟩ := h
        subst h4
        exact hwf
  | catchEmoji s target =>
    cases ds with
    | none =>
      simp only [duelStep, Except.ok.injEq, Prod.mk.injEq] at h
      obtain ⟨h4, _⟩ := h
      subst h4
      exact hwf
    | some d =>
      simp only [duelStep] at h
      by_cases h1 : d.status = .active
      · rw [if_pos h1] at h
        obtain ⟨r, hr, hrest⟩ := hwf.2 h1
        by_cases h2 : d.roundWinner.isSome
        · rw [if_pos h2] at h
          simp only [Except.ok.injEq, Prod.mk.injEq] at h
          obtain ⟨h4, _⟩ := h
          subst h4
          exact hwf
        · rw [if_neg h2] at h
          by_cases h3 : pyLower s ≠ pyLower d.p1.name ∧ pyLower s ≠ pyLower d.p2.name
          · rw [if_pos h3] at h
            simp only [Except.ok.injEq, Prod.mk.injEq] at h
            obtain ⟨h4, _⟩ := h
            subst h4
            exact hwf
          · rw [if_neg h3] at h
            by_cases h5 : pyLower s = pyLower d.p1.name
            · rw [if_pos h5] at h
              split at h
              · simp at h
              next ds3 ms3 hstart =>
                simp only [Except.ok.injEq, Prod.mk.injEq] at h
                obtain ⟨h4, _⟩ := h
                subst h4
                exact startDuelRound_WF (d := { d with
                  roundWinner := some s,
                  p1 := { d.p1 with score := d.p1.score + 1 },
                  nextRoundFaker := some d.p1.name }) h1 hr hstart
            · rw [if_neg h5] at h
              split at h
              · simp at h
              next ds3 ms3 hstart =>
                simp only [Except.ok.injEq, Prod.mk.injEq] at h
                obtain ⟨h4, _⟩ := h
                subst h4
                exact startDuelRound_WF (d := { d with
                  roundWinner := some s,
                  p2 := { d.p2 with score := d.p2.score + 1 },
                  nextRoundFaker := some d.p2.name }) h1 hr hstart
      · rw [if_neg h1] at h
        simp only [Except.ok.injEq, Prod.mk.injEq] at h
        obtain ⟨h4, _⟩ := h
        subst h4
        exact hwf
  | fake s emoji =>
    cases ds with
    | none =>
      simp only [duelStep, Except.ok.injEq, Prod.mk.injEq] at h
      obtain ⟨h4, _⟩ := h
      subst h4
      exact hwf
    | some d =>
      simp only [duelStep] at h
      by_cases h1 : d.status = .active
      · rw [if_pos h1] at h
        split at h
        · cases emoji with
          | some e =>
            simp only [Except.ok.injEq, Prod.mk.injEq] at h
            obtain ⟨h4, _⟩ := h
            subst h4
            refine ⟨fun hp => ?_, fun _ => hwf.2 h1⟩
            have hp2 : d.status = .pending := hp
            rw [h1] at hp2
            cases hp2
          | none =>
            simp only [Except.ok.injEq, Prod.mk.injEq] at h
            obtain ⟨h4, _⟩ := h
            subst h4
            exact hwf
        · simp only [Except.ok.injEq, Prod.mk.injEq] at h
          obtain ⟨h4, _⟩ := h
          subst h4
          exact hwf
      · rw [if_neg h1] at h
        simp only [Except.ok.injEq, Prod.mk.injEq] at h
        obtain ⟨h4, _⟩ := h
        subst h4
        exact hwf
  | cancel s =>
    cases ds with
    | none =>
      simp only [duelStep, Except.ok.injEq, Prod.mk.injEq] at h
      obtain ⟨h4, _⟩ := h
      subst h4
      exact hwf
    | some d =>
      simp only [duelStep] at h
      by_cases h1 : pyLower s ≠ pyLower d.p1.name ∧ pyLower s ≠ pyLower d.p2.name
      · rw [if_pos h1] at h
        simp only [Except.ok.injEq, Prod.mk.injEq] at h
        obtain ⟨h4, _⟩ := h
        subst h4
        exact hwf
      · rw [if_neg h1] at h
        by_cases hm : pyLower s ∈ d.cancelRequests
        · rw [if_pos hm] at h
          by_cases hl : d.cancelRequests.length = 2
          · rw [if_pos hl] at h
            simp only [Except.ok.injEq] at h
            have h5 := congrArg Prod.fst h
            simp only [endDuelOp, endDuelCore_fst] at h5
            rw [← h5]
            trivial
          · rw [if_neg hl] at h
            simp only [Except.ok.injEq, Prod.mk.injEq] at h
            obtain ⟨h4, _⟩ := h
            subst h4
            exact ⟨fun hp => hwf.1 hp, fun ha => hwf.2 ha⟩
        · rw [if_neg hm] at h
          by_cases hl : (d.cancelRequests ++ [pyLower s]).length = 2
          · rw [if_pos hl] at h
            simp only [Except.ok.injEq] at h
            have h5 := congrArg Prod.fst h
            simp only [endDuelOp, endDuelCore_fst] at h5
            rw [← h5]
            trivial
          · rw [if_neg hl] at h
            simp only [Except.ok.injEq, Prod.mk.injEq] at h
            obtain ⟨h4, _⟩ := h
            subst h4
            exact ⟨fun hp => hwf.1 hp, fun ha => hwf.2 ha⟩
  | roundTimeout r target =>
    cases ds with
    | none =>
      simp only [duelStep, Except.ok.injEq, Prod.mk.injEq] at h
      obtain ⟨h4, _⟩ := h
      subst h4
      exact hwf
    | some d =>
      simp only [duelStep] at h
      by_cases h1 : d.round = some r ∧ d.roundWinner = none
      · rw [if_pos h1] at h
        split at h
        · simp at h
        next ds3 ms3 hstart =>
          simp only [Except.ok.injEq, Prod.mk.injEq] at h
          obtain ⟨h4, _⟩ := h
          subst h4
          cases hst : d.status with
          | pending =>
            obtain ⟨hrn, _, _⟩ := hwf.1 hst
            rw [hrn] at h1
            cases h1.1
          | active =>
            exact startDuelRound_WF hst h1.1 hstart
      · rw [if_neg h1] at h
        simp only [Except.ok.injEq, Prod.mk.injEq] at h
        obtain ⟨h4, _⟩ := h
        subst h4
        exact hwf
  | inactivitySweep =>
    cases ds with
    | none =>
      simp only [duelStep, Except.ok.injEq, Prod.mk.injEq] at h
      obtain ⟨h4, _⟩ := h
      subst h4
      exact hwf
    | some d =>
      simp only [duelStep, Except.ok.injEq, Prod.mk.injEq] at h
      obtain ⟨h4, _⟩ := h
      subst h4
      trivial

theorem runDuelFrom_WF {l : List DuelOp} {ds ds2 : Option DuelGame}
    (hwf : DuelWF ds) (h : runDuelFrom ds l = .ok ds2) : DuelWF ds2 := by
  induction l generalizing ds with
  | nil =>
    simp only [runDuelFrom, Except.ok.injEq] at h
    subst h
    exact hwf
  | cons op t ih =>
    simp only [runDuelFrom] at h
    split at h
    · simp at h
    next ds1 ms1 hstep =>
      exact ih (duelStep_WF hwf hstep) h

/-- Every reachable duel state is well-formed. -/
theorem DuelReach_WF {ds : Option DuelGame} (h : DuelReach ds) : DuelWF ds := by
  obtain ⟨l, hl⟩ := h
  exact runDuelFrom_WF (show DuelWF none from trivial) hl

/-! ## Supporting lemmas for the claim theorems -/

theorem slAfterRollCore_extends {gs gs2 : GState} {g : SLGame} {ms ms2 : List Msg}
    (h : slAfterRollCore gs g ms = .ok (gs2, ms2)) :
    (∃ tail, gs2.rankEvents = gs.rankEvents ++ tail) ∧
    (∃ tail2, ms2 = ms ++ tail2) := by
  simp only [slAfterRollCore] at h
  by_cases hc1 : (playingEntries g.players).length ≤ 1
  · rw [if_pos hc1] at h
    by_cases hc2 : (playingEntries g.players).length = 1
    · rw [if_pos hc2] at h
      split at h
      · simp at h
      next e hfind =>
        simp only [Except.ok.injEq, Prod.mk.injEq] at h
        obtain ⟨h4, h5⟩ := h
        subst h4
        exact ⟨⟨_, rfl⟩, ⟨_, h5.symm⟩⟩
    · rw [if_neg hc2] at h
      simp only [Except.ok.injEq, Prod.mk.injEq] at h
      obtain ⟨h4, h5⟩ := h
      subst h4
      exact ⟨⟨[], by simp⟩, ⟨_, h5.symm⟩⟩
  · rw [if_neg hc1] at h
    split at h
    · simp at h
    next hadv =>
      simp only [Except.ok.injEq, Prod.mk.injEq] at h
      obtain ⟨h4, h5⟩ := h
      subst h4
      exact ⟨⟨[], by simp⟩, ⟨[], by simp [h5.symm]⟩⟩
    next g3 nm hadv =>
      simp only [Except.ok.injEq, Prod.mk.injEq] at h
      obtain ⟨h4, h5⟩ := h
      subst h4
      exact ⟨⟨[], by simp⟩, ⟨_, h5.symm⟩⟩

theorem slAfterRollCore_game_players {gs gs2 : GState} {g : SLGame} {ms ms2 : List Msg}
    (h : slAfterRollCore gs g ms = .ok (gs2, ms2)) :
    ∀ g2, gs2.game = some g2 → g2.players = g.players := by
  intro g2 hg2
  simp only [slAfterRollCore] at h
  by_cases hc1 : (playingEntries g.players).length ≤ 1
  · rw [if_pos hc1] at h
    by_cases hc2 : (playingEntries g.players).length = 1
    · rw [if_pos hc2] at h
      split at h
      · simp at h
      next e hfind =>
        simp only [Except.ok.injEq, Prod.mk.injEq] at h
        obtain ⟨h4, _⟩ := h
        subst h4
        simp at hg2
    · rw [if_neg hc2] at h
      simp only [Except.ok.injEq, Prod.mk.injEq] at h
      obtain ⟨h4, _⟩ := h
      subst h4
      simp at hg2
  · rw [if_neg hc1] at h
    split at h
    · simp at h
    next hadv =>
      simp only [Except.ok.injEq, Prod.mk.injEq] at h
      obtain ⟨h4, _⟩ := h
      subst h4
      simp at hg2
    next g3 nm hadv =>
      simp only [Except.ok.injEq, Prod.mk.injEq] at h
      obtain ⟨h4, _⟩ := h
      subst h4
      simp only [Option.some.injEq] at hg2
      subst hg2
      exact (advanceSlTurn_ok_spec hadv).2.1

theorem tableLookup_none_of_forall {l : List (Nat × Nat)} {k : Nat} :
    (∀ e ∈ l, e.1 ≠ k) → tableLookup l k = none := by
  induction l with
  | nil => intro _; rfl
  | cons e t ih =>
    intro hall
    simp only [tableLookup, if_neg (hall e (List.mem_cons_self _ _))]
    exact ih (fun e2 he2 => hall e2 (List.mem_cons_of_mem _ he2))

theorem tableLookup_none_of_ge {k : Nat} (h : 100 ≤ k) :
    tableLookup SNAKES_AND_LADDERS k = none := by
  refine tableLookup_none_of_forall ?_
  intro e he hek
  have hb : e.1 ≤ 99 := by
    have : ∀ e2 ∈ SNAKES_AND_LADDERS, e2.1 ≤ 99 := by decide
    exact this e he
  omega

theorem rollFinalPos_of_ge {old die : Nat} (h : 100 ≤ old + die) :
    rollFinalPos old die = old + die := by
  simp only [rollFinalPos, tableLookup_none_of_ge h]

theorem advanceSlTurn_isOk {g : SLGame}
    (hact : g.status = .active)
    (hnd : (keysP g.players).Nodup)
    (hne : ∃ k, k ∈ g.turnOrder ∧ k ∈ playingKeysOf g.players) :
    ∃ g2 nm, advanceSlTurn g = .ok (some (g2, nm)) := by
  obtain ⟨k, hk1, hk2⟩ := hne
  have hak : ¬ playingKeysOf g.players = [] := by
    intro hcon
    rw [hcon] at hk2
    simp at hk2
  have hkf : k ∈ g.turnOrder.filter (fun k => decide (k ∈ playingKeysOf g.players)) :=
    List.mem_filter.mpr ⟨hk1, by simpa using hk2⟩
  have hno : ¬ g.turnOrder.filter (fun k => decide (k ∈ playingKeysOf g.players)) = [] := by
    intro hcon
    rw [hcon] at hkf
    simp at hkf
  have hlen : 0 < (g.turnOrder.filter
      (fun k => decide (k ∈ playingKeysOf g.players))).length :=
    List.length_pos.mpr hno
  have hidx : (if (g.turnOrder.filter
        (fun k => decide (k ∈ playingKeysOf g.players))).length ≤ g.currentTurnIndex
      then 0 else g.currentTurnIndex) <
      (g.turnOrder.filter (fun k => decide (k ∈ playingKeysOf g.players))).length := by
    split
    · exact hlen
    next hc => exact Nat.lt_of_not_le hc
  obtain ⟨key, hkey⟩ : ∃ key, (g.turnOrder.filter
      (fun k => decide (k ∈ playingKeysOf g.players)))[(if (g.turnOrder.filter
        (fun k => decide (k ∈ playingKeysOf g.players))).length ≤ g.currentTurnIndex
      then 0 else g.currentTurnIndex)]? = some key := by
    rw [List.getElem?_eq_getElem hidx]
    exact ⟨_, rfl⟩
  have hkmem : key ∈ g.turnOrder.filter
      (fun k => decide (k ∈ playingKeysOf g.players)) := List.getElem?_mem hkey
  have hkpl : key ∈ playingKeysOf g.players := by
    simpa using (List.mem_filter.mp hkmem).2
  obtain ⟨q, hq, hqs⟩ := lookupP_playing_of_mem_playingKeys hnd hkpl
  simp only [advanceSlTurn]
  rw [if_neg (by simp [hact]), if_neg hak, if_neg hno]
  simp only [hkey, hq]
  exact ⟨_, _, rfl⟩

theorem slQuit_turnOrder_sublist {u : String} {gs gs2 : GState} {ms : List Msg}
    {g g2 : SLGame} (hg : gs.game = some g)
    (h : slQuit u gs = .ok (gs2, ms)) (hg2 : gs2.game = some g2) :
    g2.turnOrder.Sublist g.turnOrder := by
  simp only [slQuit, hg] at h
  by_cases h1 : g.status ≠ .active ∨ (lookupP g.players u).isNone
  · rw [if_pos h1] at h
    simp only [Except.ok.injEq, Prod.mk.injEq] at h
    obtain ⟨h4, _⟩ := h
    subst h4
    rw [hg] at hg2
    simp only [Option.some.injEq] at hg2
    subst hg2
    exact List.Sublist.refl _
  · rw [if_neg h1] at h
    split at h
    · simp at h
    next cur hcur =>
      by_cases hlt : (playingEntries (eraseP g.players u)).length < 2
      · rw [if_pos hlt] at h
        simp only [Except.ok.injEq, Prod.mk.injEq] at h
        obtain ⟨h4, _⟩ := h
        subst h4
        simp at hg2
      · rw [if_neg hlt] at h
        by_cases hwt : cur = u
        · rw [if_pos hwt] at h
          split at h
          · simp at h
          next hadv =>
            simp only [Except.ok.injEq, Prod.mk.injEq] at h
            obtain ⟨h4, _⟩ := h
            subst h4
            simp at hg2
          next g3 nm hadv =>
            simp only [Except.ok.injEq, Prod.mk.injEq] at h
            obtain ⟨h4, _⟩ := h
            subst h4
            simp only [Option.some.injEq] at hg2
            subst hg2
            have hspec := (advanceSlTurn_ok_spec hadv).2.2.2.2.2.1
            rw [hspec]
            exact (List.filter_sublist _).trans (List.filter_sublist _)
        · rw [if_neg hwt] at h
          simp only [Except.ok.injEq, Prod.mk.injEq] at h
          obtain ⟨h4, _⟩ := h
          subst h4
          simp only [Option.some.injEq] at hg2
          subst hg2
          exact List.filter_sublist _

theorem slKick_turnOrder_sublist {actor : String} {isMaster : Bool} {target : String}
    {gs gs2 : GState} {ms : List Msg} {g g2 : SLGame} (hg : gs.game = some g)
    (h : slKick actor isMaster target gs = .ok (gs2, ms)) (hg2 : gs2.game = some g2) :
    g2.turnOrder.Sublist g.turnOrder := by
  simp only [slKick, hg] at h
  by_cases h1 : g.status ≠ .active
  · rw [if_pos h1] at h
    simp only [Except.ok.injEq, Prod.mk.injEq] at h
    obtain ⟨h4, _⟩ := h
    subst h4
    rw [hg] at hg2
    simp only [Option.some.injEq] at hg2
    subst hg2
    exact List.Sublist.refl _
  · rw [if_neg h1] at h
    by_cases h0 : ¬ isMaster ∧ actor ≠ g.host
    · rw [if_pos h0] at h
      simp only [Except.ok.injEq, Prod.mk.injEq] at h
      obtain ⟨h4, _⟩ := h
      subst h4
      rw [hg] at hg2
      simp only [Option.some.injEq] at hg2
      subst hg2
      exact List.Sublist.refl _
    · rw [if_neg h0] at h
      by_cases h2 : (lookupP g.players target).isNone
      · rw [if_pos h2] at h
        simp only [Except.ok.injEq, Prod.mk.injEq] at h
        obtain ⟨h4, _⟩ := h
        subst h4
        rw [hg] at hg2
        simp only [Option.some.injEq] at hg2
        subst hg2
        exact List.Sublist.refl _
      · rw [if_neg h2] at h
        split at h
        · simp at h
        next cur hcur =>
          by_cases hlt : (playingEntries (eraseP g.players target)).length < 2
          · rw [if_pos hlt] at h
            simp only [Except.ok.injEq, Prod.mk.injEq] at h
            obtain ⟨h4, _⟩ := h
            subst h4
            simp at hg2
          · rw [if_neg hlt] at h
            by_cases hwt : cur = target
            · rw [if_pos hwt] at h
              split at h
              · simp at h
              next hadv =>
                simp only [Except.ok.injEq, Prod.mk.injEq] at h
                obtain ⟨h4, _⟩ := h
                subst h4
                simp at hg2
              next g3 nm hadv =>
                simp only [Except.ok.injEq, Prod.mk.injEq] at h
                obtain ⟨h4, _⟩ := h
                subst h4
                simp only [Option.some.injEq] at hg2
                subst hg2
                have hspec := (advanceSlTurn_ok_spec hadv).2.2.2.2.2.1
                rw [hspec]
                exact (List.filter_sublist _).trans (List.filter_sublist _)
            · rw [if_neg hwt] at h
              simp only [Except.ok.injEq, Prod.mk.injEq] at h
              obtain ⟨h4, _⟩ := h
              subst h4
              simp only [Option.some.injEq] at hg2
              subst hg2
              exact List.filter_sublist _

/-! ## Claim theorems -/

/-- C10: the receive path and the timeout sweep do take the same per-class
lock (`sl_game_lock` appears in both `handle_sl_commands` and
`sl_turn_monitor`), but the claim that every acquisition eventually
completes is false on the code: the `!accept`, `!catch` and `!cancelduel`
branches of `handle_emoji_duel_commands`, and `check_duel_round_timeout`,
call `start_duel_round` / `end_duel` while already holding the
non-reentrant `emoji_duel_lock`, so the thread blocks forever acquiring a
lock it already holds. -/
theorem duel_lock_paths_self_deadlock :
    (LockEv.acq .slGame ∈ slHandlerPathLocks ∧ LockEv.acq .slGame ∈ slMonitorPathLocks) ∧
    completesAllAcquisitions slHandlerPathLocks = true ∧
    completesAllAcquisitions slMonitorPathLocks = true ∧
    completesAllAcquisitions duelAcceptPathLocks = false ∧
    completesAllAcquisitions duelCatchPathLocks = false ∧
    completesAllAcquisitions duelCancelPathLocks = false ∧
    completesAllAcquisitions duelTimeoutPathLocks = false := by decide

/-- C9: a die advance landing on a cell of the fixed table records the
mapped cell as the final position, before the 100-finalisation (in
particular a die advance landing on cell 3 records 16, the table value,
not 3 plus the die); every snake entry strictly decreases the position and
every ladder entry strictly increases it. -/
theorem snakes_ladders_remap_correct (old die m : Nat)
    (h : tableLookup SNAKES_AND_LADDERS (old + die) = some m) :
    rollRecordedPos old die = m ∧
    (∀ e ∈ SNAKES, e.2 < e.1) ∧
    (∀ e ∈ LADDERS, e.1 < e.2) ∧
    rollRecordedPos 1 2 = 16 := by
  refine ⟨?_, by decide, by decide, by decide⟩
  have hb := table_value_bounds _ (tableLookup_mem h)
  simp only [rollRecordedPos, rollFinalPos, h]
  rw [if_neg (by omega)]

/-- Witness: a player on square 1 rolling a 2 lands on ladder cell 3 and
is recorded on square 16. -/
theorem snakes_ladders_remap_correct_witness :
    tableLookup SNAKES_AND_LADDERS (1 + 2) = some 16 ∧
    (rollRecordedPos 1 2 = 16 ∧
     (∀ e ∈ SNAKES, e.2 < e.1) ∧
     (∀ e ∈ LADDERS, e.1 < e.2) ∧
     rollRecordedPos 1 2 = 16) :=
  ⟨by decide, snakes_ladders_remap_correct 1 2 16 (by decide)⟩

/-- C1: the claimed turn-index invariant fails on the code.  After a
lobby of three, a start with the identity shuffle and two uneventful
rolls, the turn index is 2 (player c); player a then quits while it is
not a's turn, and the `!quit` branch removes a from `turn_order` without
clamping `current_turn_index` (the clamp only runs in the
`was_their_turn` case).  The reachable state has `current_turn_index = 2`
with a two-element `turn_order` — neither a valid index nor 0 — and the
next `!roll` raises IndexError at `turn_order[current_turn_index]`. -/
theorem sl_quit_turn_index_invariant_violation :
    ((getOkSL (runSL c1Trace)).game.map
      (fun g => (g.currentTurnIndex, g.turnOrder,
        decide (g.currentTurnIndex < g.turnOrder.length ∨ g.currentTurnIndex = 0)))) =
      some (2, ["b", "c"], false) ∧
    runSL c1Trace = .ok (getOkSL (runSL c1Trace)) ∧
    runSL (c1Trace ++ [SLOp.roll "c" 1]) = .error .indexError := by decide

/-- C2 (counterexample): the reachable duel that stands 2-2 when round 5
times out does not report a tie; `end_duel` announces p2 ("b") as the
champion. -/
theorem duel_tie_no_tie_outcome_counterexample :
    (runDuel c2Pre).map (Option.map (fun d => (d.round, d.p1.score, d.p2.score))) =
      .ok (some (some 5, 2, 2)) ∧
    (duelStep (.roundTimeout 5 "t") c2Duel).map Prod.snd =
      .ok [Msg.timeUp, Msg.champion "b" "a" 2 2] := by decide

/-- C2 (amended): when a duel ends with equal scores the engine does not
crash and deterministically reports p2 as champion — the comparison
`p1 if p1['score'] > p2['score'] else p2` silently treats a tie as a p2
win; no tie outcome exists in the code. -/
theorem duel_tie_declares_p2 (d : DuelGame) (heq : d.p1.score = d.p2.score) :
    endDuelCore d false =
      (none, [Msg.champion d.p2.name d.p1.name d.p1.score d.p2.score]) := by
  simp only [endDuelCore]
  have hng : ¬ d.p1.score > d.p2.score := by omega
  simp [hng]

/-- Witness: the reachable 2-2 duel state, fed to `end_duel`, yields the
p2 champion message. -/
theorem duel_tie_declares_p2_witness :
    c2Game.p1.score = c2Game.p2.score ∧
    endDuelCore c2Game false =
      (none, [Msg.champion c2Game.p2.name c2Game.p1.name
        c2Game.p1.score c2Game.p2.score]) :=
  ⟨by decide, duel_tie_declares_p2 c2Game (by decide)⟩

/-- C5: in every reachable active Emoji Duel the round count is at most 5
and neither score exceeds 3 (before termination), and the duel terminates
as soon as a score reaches 3 (the catch that makes it 3-x deletes the
session) or round 5 elapses without a decision (the round-5 timeout
deletes the session). -/
theorem duel_round_score_bounds (ds : Option DuelGame) (d : DuelGame)
    (hreach : DuelReach ds) (hds : ds = some d) (hact : d.status = .active) :
    (∃ r, d.round = some r ∧ r ≤ 5) ∧ d.p1.score ≤ 3 ∧ d.p2.score ≤ 3 ∧
    (∀ s t ds2 ms, pyLower s = pyLower d.p1.name → d.roundWinner = none →
      d.p1.score = 2 → duelStep (.catchEmoji s t) ds = .ok (ds2, ms) → ds2 = none) ∧
    (∀ t ds2 ms, d.round = some 5 → d.roundWinner = none →
      duelStep (.roundTimeout 5 t) ds = .ok (ds2, ms) → ds2 = none) := by
  have hwf := DuelReach_WF hreach
  rw [hds] at hwf
  obtain ⟨r, hr, hr1, hr5, hs1, hs2⟩ := hwf.2 hact
  refine ⟨⟨r, hr, hr5⟩, by omega, by omega, ?_, ?_⟩
  · intro s t ds2 ms hmatch hnw hsc hstep
    simp only [duelStep, hds] at hstep
    rw [if_pos hact] at hstep
    rw [if_neg (by simp [hnw])] at hstep
    rw [if_neg (by push_neg; intro hcon; exact absurd hmatch hcon)] at hstep
    rw [if_pos hmatch] at hstep
    split at hstep
    · simp at hstep
    next ds3 ms3 hstart =>
      simp only [Except.ok.injEq, Prod.mk.injEq] at hstep
      obtain ⟨h4, _⟩ := hstep
      subst h4
      simp only [startDuelRound, hr] at hstart
      rw [if_pos (by right; left; simp [hsc])] at hstart
      simp only [Except.ok.injEq] at hstart
      have h5 := congrArg Prod.fst hstart
      simp only [endDuelOp, endDuelCore_fst] at h5
      exact h5.symm
  · intro t ds2 ms hr5eq hnw hstep
    simp only [duelStep, hds] at hstep
    rw [if_pos (by exact ⟨hr5eq, hnw⟩)] at hstep
    split at hstep
    · simp at hstep
    next ds3 ms3 hstart =>
      simp only [Except.ok.injEq, Prod.mk.injEq] at hstep
      obtain ⟨h4, _⟩ := hstep
      subst h4
      simp only [startDuelRound, hr5eq] at hstart
      rw [if_pos (by left; omega)] at hstart
      simp only [Except.ok.injEq] at hstart
      have h5 := congrArg Prod.fst hstart
      simp only [endDuelOp, endDuelCore_fst] at h5
      exact h5.symm

/-- Witness: the freshly accepted duel (round 1, score 0-0) satisfies the
bounds. -/
theorem duel_round_score_bounds_witness :
    (∃ r, c5Game.round = some r ∧ r ≤ 5) ∧ c5Game.p1.score ≤ 3 ∧ c5Game.p2.score ≤ 3 ∧
    (∀ s t ds2 ms, pyLower s = pyLower c5Game.p1.name → c5Game.roundWinner = none →
      c5Game.p1.score = 2 →
      duelStep (.catchEmoji s t) c5Duel = .ok (ds2, ms) → ds2 = none) ∧
    (∀ t ds2 ms, c5Game.round = some 5 → c5Game.roundWinner = none →
      duelStep (.roundTimeout 5 t) c5Duel = .ok (ds2, ms) → ds2 = none) :=
  duel_round_score_bounds c5Duel c5Game ⟨c5Pre, by decide⟩ (by decide) (by decide)

/-- C7: every timeout or termination transition and every game operation
referencing a deleted session is a silent no-op: no exception is raised
and the session state is not mutated.  (The `sl_join` profile reply on a
deleted game consumes its correlator context but leaves the game
component untouched and emits nothing, per bot.py 2874-2883.) -/
theorem deleted_session_ops_noop (pending : List String)
    (evs : List (String × Nat)) :
    (∀ u, slStep (.joinReq u) ⟨none, pending, evs⟩ =
      .ok (⟨none, pending, evs⟩, [.noGame])) ∧
    (∀ r perm, slStep (.start r perm) ⟨none, pending, evs⟩ =
      .ok (⟨none, pending, evs⟩, [.noGame])) ∧
    (∀ u die, slStep (.roll u die) ⟨none, pending, evs⟩ =
      .ok (⟨none, pending, evs⟩, [.noGame])) ∧
    (∀ u, slStep (.quit u) ⟨none, pending, evs⟩ =
      .ok (⟨none, pending, evs⟩, [.noGame])) ∧
    (∀ a m t, slStep (.kick a m t) ⟨none, pending, evs⟩ =
      .ok (⟨none, pending, evs⟩, [.noGame])) ∧
    (∀ e, slStep (.sweep e) ⟨none, pending, evs⟩ =
      .ok (⟨none, pending, evs⟩, [])) ∧
    (slStep .closeGame ⟨none, pending, evs⟩ =
      .ok (⟨none, pending, evs⟩, [.noGameToClose])) ∧
    (∀ u uid, (slStep (.resolveJoin u uid) ⟨none, pending, evs⟩).map
      (fun x => (x.1.game, x.1.rankEvents, x.2)) = .ok (none, evs, [])) ∧
    (∀ s t, duelStep (.accept s t) none = .ok (none, [])) ∧
    (∀ s t, duelStep (.catchEmoji s t) none = .ok (none, [])) ∧
    (∀ s e, duelStep (.fake s e) none = .ok (none, [])) ∧
    (∀ s, duelStep (.cancel s) none = .ok (none, [])) ∧
    (∀ r t, duelStep (.roundTimeout r t) none = .ok (none, [])) ∧
    (duelStep .inactivitySweep none = .ok (none, [])) ∧
    (∀ t, startDuelRound none t = .ok (none, [])) ∧
    (∀ c, endDuelOp none c = (none, [])) := by
  refine ⟨fun u => rfl, fun r perm => rfl, fun u die => rfl, fun u => rfl,
    fun a m t => rfl, fun e => rfl, rfl, ?_, fun s t => rfl, fun s t => rfl,
    fun s e => rfl, fun s => rfl, fun r t => rfl, rfl, fun t => rfl, fun c => rfl⟩
  intro u uid
  simp only [slStep, slResolveJoin]
  by_cases hm : u ∈ pending
  · rw [if_pos (show u ∈ GState.pendingJoins ⟨none, pending, evs⟩ from hm)]
    rfl
  · rw [if_neg (show u ∉ GState.pendingJoins ⟨none, pending, evs⟩ from hm)]
    rfl

/-- C8: `!j` is valid only in the lobby and fails with a user-visible
reason and no state mutation when the user already joined or the lobby
holds 10 players; a successful `!j` does not touch `players` (it only
records the profile-request context), and the player is inserted exactly
when the profile reply resolves while the game still exists in lobby
state, announcing the new player count. -/
theorem sl_join_semantics (gs : GState) (g : SLGame) (u : String) (uid : Option Nat)
    (hg : gs.game = some g) :
    (g.status ≠ .lobby → slStep (.joinReq u) gs = .ok (gs, [.cantJoinNow])) ∧
    (g.status = .lobby → (lookupP g.players u).isSome →
      slStep (.joinReq u) gs = .ok (gs, [.alreadyJoined u])) ∧
    (g.status = .lobby → lookupP g.players u = none → 10 ≤ g.players.length →
      slStep (.joinReq u) gs = .ok (gs, [.gameFull])) ∧
    (g.status = .lobby → lookupP g.players u = none → g.players.length < 10 →
      ∀ gs2 ms, slStep (.joinReq u) gs = .ok (gs2, ms) →
        gs2.game = gs.game ∧ u ∈ gs2.pendingJoins ∧
        ms = [.profileRequest u, .joining u]) ∧
    (u ∈ gs.pendingJoins → g.status = .lobby →
      ∀ gs2 ms, slStep (.resolveJoin u uid) gs = .ok (gs2, ms) →
        ∃ g2, gs2.game = some g2 ∧
          lookupP g2.players u = some { username := u, userid := uid } ∧
          ms = [.joined u g2.players.length] ∧
          (∀ k, k ≠ u → lookupP g2.players k = lookupP g.players k)) ∧
    (g.status ≠ .lobby → ∀ gs2 ms, slStep (.resolveJoin u uid) gs = .ok (gs2, ms) →
      gs2.game = gs.game ∧ ms = []) := by
  refine ⟨?_, ?_, ?_, ?_, ?_, ?_⟩
  · intro h1
    simp only [slStep, slJoinReq, hg]
    rw [if_pos h1]
  · intro h1 h2
    simp only [slStep, slJoinReq, hg]
    rw [if_neg (by simp [h1]), if_pos h2]
  · intro h1 h2 h3
    simp only [slStep, slJoinReq, hg]
    rw [if_neg (by simp [h1]), if_neg (by simp [h2]), if_pos h3]
  · intro h1 h2 h3 gs2 ms hstep
    simp only [slStep, slJoinReq, hg] at hstep
    rw [if_neg (by simp [h1]), if_neg (by simp [h2]),
      if_neg (by omega)] at hstep
    simp only [Except.ok.injEq, Prod.mk.injEq] at hstep
    obtain ⟨h4, h5⟩ := hstep
    subst h4
    refine ⟨hg.symm, ?_, h5.symm⟩
    by_cases hm : u ∈ gs.pendingJoins
    · simp [hm]
    · simp [hm]
  · intro hm h1 gs2 ms hstep
    simp only [slStep, slResolveJoin, hg] at hstep
    rw [if_pos hm, if_pos h1] at hstep
    simp only [Except.ok.injEq, Prod.mk.injEq] at hstep
    obtain ⟨h4, h5⟩ := hstep
    subst h4
    refine ⟨_, rfl, lookupP_setP_self _ _ _, by rw [← h5], ?_⟩
    intro k hk
    exact lookupP_setP_ne _ _ hk
  · intro h1 gs2 ms hstep
    simp only [slStep, slResolveJoin, hg] at hstep
    by_cases hm : u ∈ gs.pendingJoins
    · rw [if_pos hm, if_neg h1] at hstep
      simp only [Except.ok.injEq, Prod.mk.injEq] at hstep
      obtain ⟨h4, h5⟩ := hstep
      subst h4
      exact ⟨hg.symm, h5.symm⟩
    · rw [if_neg hm] at hstep
      simp only [Except.ok.injEq, Prod.mk.injEq] at hstep
      obtain ⟨h4, h5⟩ := hstep
      subst h4
      exact ⟨rfl, h5.symm⟩

/-- Witness: joining the one-player lobby reached by `c8Trace`. -/
theorem sl_join_semantics_witness :
    (c8Game.status ≠ .lobby →
      slStep (.joinReq "z") c8Gs = .ok (c8Gs, [.cantJoinNow])) ∧
    (c8Game.status = .lobby → (lookupP c8Game.players "z").isSome →
      slStep (.joinReq "z") c8Gs = .ok (c8Gs, [.alreadyJoined "z"])) ∧
    (c8Game.status = .lobby → lookupP c8Game.players "z" = none →
      10 ≤ c8Game.players.length →
      slStep (.joinReq "z") c8Gs = .ok (c8Gs, [.gameFull])) ∧
    (c8Game.status = .lobby → lookupP c8Game.players "z" = none →
      c8Game.players.length < 10 →
      ∀ gs2 ms, slStep (.joinReq "z") c8Gs = .ok (gs2, ms) →
        gs2.game = c8Gs.game ∧ "z" ∈ gs2.pendingJoins ∧
        ms = [.profileRequest "z", .joining "z"]) ∧
    ("z" ∈ c8Gs.pendingJoins → c8Game.status = .lobby →
      ∀ gs2 ms, slStep (.resolveJoin "z" (some 9)) c8Gs = .ok (gs2, ms) →
        ∃ g2, gs2.game = some g2 ∧
          lookupP g2.players "z" = some { username := "z", userid := some 9 } ∧
          ms = [.joined "z" g2.players.length] ∧
          (∀ k, k ≠ "z" → lookupP g2.players k = lookupP c8Game.players k)) ∧
    (c8Game.status ≠ .lobby →
      ∀ gs2 ms, slStep (.resolveJoin "z" (some 9)) c8Gs = .ok (gs2, ms) →
        gs2.game = c8Gs.game ∧ ms = []) :=
  sl_join_semantics c8Gs c8Game "z" (some 9) (by decide)

/-- C3: for a roll by the current player `u` of an active reachable game,
the recorded position stays in `[1, 100]`; the ranks assigned so far in
this game read `1, 2, 3, …` (unique, increasing from 1) before and after
the roll; and when the die advance reaches or passes 100 the roller is
recorded at position 100 with status finished and rank `next_rank`, that
rank is logged, and the finish is announced. -/
theorem sl_roll_position_and_ranks (gs : GState) (g : SLGame) (u : String)
    (p : SLPlayer) (die : Nat)
    (hreach : SLReach gs) (hg : gs.game = some g) (hact : g.status = .active)
    (hcur : g.turnOrder[g.currentTurnIndex]? = some u)
    (hp : lookupP g.players u = some p)
    (hd1 : 1 ≤ die) (hd6 : die ≤ 6) :
    (1 ≤ rollRecordedPos p.position die ∧ rollRecordedPos p.position die ≤ 100) ∧
    gs.rankEvents.map Prod.snd = List.range' 1 gs.rankEvents.length ∧
    ∀ gs2 ms, slStep (.roll u die) gs = .ok (gs2, ms) →
      gs2.rankEvents.map Prod.snd = List.range' 1 gs2.rankEvents.length ∧
      (100 ≤ p.position + die →
        (u, g.nextRank) ∈ gs2.rankEvents ∧
        Msg.finished u g.nextRank ∈ ms ∧
        ∀ g2, gs2.game = some g2 →
          lookupP g2.players u =
            some { p with position := 100, status := PStatus.finished,
                          rank := g.nextRank }) := by
  have hwf := SLReach_WF hreach
  obtain ⟨hrk, hgwf⟩ := hwf
  obtain ⟨hnr, hnd, hto, hconvG, hcnt2, hpo, hlob⟩ := hgwf g hg
  have hpok : PlayerOK p := hpo (u, p) (lookupP_mem hp)
  refine ⟨rollRecordedPos_bounds hpok.1 hd1, hrk, ?_⟩
  intro gs2 ms hstep
  have hwf2 := slStep_WF ⟨hrk, hgwf⟩ hstep
  refine ⟨hwf2.1, ?_⟩
  intro hfin
  have h100 : 100 ≤ rollFinalPos p.position die := by
    rw [rollFinalPos_of_ge hfin]
    exact hfin
  simp only [slStep, slRoll, hg] at hstep
  rw [if_neg (by simp [hact])] at hstep
  simp only [hcur] at hstep
  rw [if_neg (fun hc => hc rfl)] at hstep
  rw [if_neg (fun hc => hc ⟨hd1, hd6⟩)] at hstep
  simp only [hp] at hstep
  rw [if_pos h100] at hstep
  simp only [slAfterRoll] at hstep
  obtain ⟨⟨tail, hre⟩, tail2, hms⟩ := slAfterRollCore_extends hstep
  have hre2 : gs2.rankEvents = (gs.rankEvents ++ [(u, g.nextRank)]) ++ tail := hre
  have hms2 : ms = [Msg.rolled u die 100, Msg.finished u g.nextRank] ++ tail2 := hms
  refine ⟨?_, ?_, ?_⟩
  · rw [hre2]
    simp
  · rw [hms2]
    simp
  · intro g2 hg2
    have hpl : g2.players =
        setP g.players u { p with position := 100, status := PStatus.finished,
                                  rank := g.nextRank } :=
      slAfterRollCore_game_players hstep g2 hg2
    rw [hpl]
    exact lookupP_setP_self _ _ _

/-- Witness: at the reachable state `c3Gs` player a sits on square 95 with
the turn; a 5 finishes a with rank 1 and b is crowned with rank 2. -/
theorem sl_roll_position_and_ranks_witness :
    (1 ≤ rollRecordedPos 95 5 ∧ rollRecordedPos 95 5 ≤ 100) ∧
    c3Gs.rankEvents.map Prod.snd = List.range' 1 c3Gs.rankEvents.length ∧
    ("a", 1) ∈ ([("a", 1), ("b", 2)] : List (String × Nat)) := by
  have h := sl_roll_position_and_ranks c3Gs c3Game "a"
    { username := "a", userid := some 1, position := 95 } 5
    ⟨c3Trace, by decide⟩ (by decide) (by decide) (by decide) (by decide)
    (by decide) (by decide)
  have h3 := h.2.2 { game := none, pendingJoins := [], rankEvents := [("a", 1), ("b", 2)] }
    [Msg.rolled "a" 5 100, Msg.finished "a" 1, Msg.gameOver] (by decide)
  exact ⟨h.1, h.2.1, (h3.2 (by decide)).1⟩

/-- C4 (counterexample): the turn pointer can skip a playing player.  In
`c4Trace` player a finishes with rank 1 while rolling from index 0 of
`turn_order = [a, b, c]`; `perform_roll` increments the index to 1 before
`advance_sl_turn` filters a out of the order, so in the filtered order
`[b, c]` index 1 selects c, and the playing player b — the next player
after the roller in the previous order — is skipped. -/
theorem sl_roll_skips_playing_player_counterexample :
    runSL c4Trace = .ok c4Gs ∧
    c4Gs.rankEvents = [("a", 1)] ∧
    c4Gs.game = some c4Game ∧
    c4Game.turnOrder = ["b", "c"] ∧
    c4Game.currentTurnIndex = 1 ∧
    c4Game.turnOrder[c4Game.currentTurnIndex]? = some "c" ∧
    lookupP c4Game.players "b" =
      some { username := "b", userid := some 2, position := 40 } := by decide

/-- C4 (amended): for a roll by the current player that does not finish
the roller, the turn order is unchanged and the pointer moves to
`(current_turn_index + 1) % len`, which holds a playing player; and
`!quit` and `!kick` leave the surviving `turn_order` a sublist (the same
relative order) of the previous one.  When the roller finishes, the
pointer can instead skip one playing player (see the counterexample). -/
theorem sl_roll_turn_advance (gs : GState) (g : SLGame) (u : String)
    (p : SLPlayer) (die : Nat) (gs2 : GState) (ms : List Msg) (g2 : SLGame)
    (hreach : SLReach gs) (hg : gs.game = some g) (hact : g.status = .active)
    (hcur : g.turnOrder[g.currentTurnIndex]? = some u)
    (hp : lookupP g.players u = some p)
    (hd1 : 1 ≤ die) (hd6 : die ≤ 6) (hnf : p.position + die < 100)
    (hstep : slStep (.roll u die) gs = .ok (gs2, ms)) (hg2 : gs2.game = some g2) :
    g2.turnOrder = g.turnOrder ∧
    g2.currentTurnIndex = (g.currentTurnIndex + 1) % g.turnOrder.length ∧
    (∃ cur2 q, g2.turnOrder[g2.currentTurnIndex]? = some cur2 ∧
      lookupP g2.players cur2 = some q ∧ q.status = PStatus.playing) ∧
    (∀ u2 gs3 ms3 g3, slStep (.quit u2) gs = .ok (gs3, ms3) →
      gs3.game = some g3 → g3.turnOrder.Sublist g.turnOrder) ∧
    (∀ a b t gs3 ms3 g3, slStep (.kick a b t) gs = .ok (gs3, ms3) →
      gs3.game = some g3 → g3.turnOrder.Sublist g.turnOrder) := by
  have hwf := SLReach_WF hreach
  obtain ⟨hrk, hgwf⟩ := hwf
  obtain ⟨hnr, hnd, hto, hconvG, hcnt2, hpo, hlob⟩ := hgwf g hg
  have hpok : PlayerOK p := hpo (u, p) (lookupP_mem hp)
  have hu : u ∈ keysP g.players := lookupP_isSome_iff.mp (by rw [hp]; rfl)
  have hidxlt : g.currentTurnIndex < g.turnOrder.length := by
    by_contra hc
    rw [List.getElem?_eq_none (Nat.le_of_not_lt hc)] at hcur
    cases hcur
  have hppl : p.status = PStatus.playing := by
    obtain ⟨p0, hp0, hp0pl⟩ := hto u (List.getElem?_mem hcur)
    rw [hp] at hp0
    injection hp0 with hpe
    rw [hpe]
    exact hp0pl
  have hlt100 : ¬ 100 ≤ rollFinalPos p.position die := by
    rcases (rollFinalPos_bounds hpok.1 hd1).2 with hb | hb <;> omega
  simp only [slStep, slRoll, hg] at hstep
  rw [if_neg (by simp [hact])] at hstep
  simp only [hcur] at hstep
  rw [if_neg (fun hc => hc rfl)] at hstep
  rw [if_neg (fun hc => hc ⟨hd1, hd6⟩)] at hstep
  simp only [hp] at hstep
  rw [if_neg hlt100] at hstep
  simp only [slAfterRoll, slAfterRollCore] at hstep
  have hlen : (playingEntries (setP g.players u
      { p with position := rollFinalPos p.position die })).length =
      (playingEntries g.players).length :=
    playingEntries_length_setP hp rfl
  have hc1 : ¬ (playingEntries (setP g.players u
      { p with position := rollFinalPos p.position die })).length ≤ 1 := by
    rw [hlen]
    have := hcnt2 hact
    omega
  rw [if_neg hc1] at hstep
  split at hstep
  · simp at hstep
  next hadv =>
    simp only [Except.ok.injEq, Prod.mk.injEq] at hstep
    obtain ⟨h4, _⟩ := hstep
    subst h4
    simp at hg2
  next g3 nm hadv =>
    simp only [Except.ok.injEq, Prod.mk.injEq] at hstep
    obtain ⟨h4, h5⟩ := hstep
    subst h4
    have hg2b : some g3 = some g2 := hg2
    injection hg2b with hg2c
    subst hg2c
    obtain ⟨hactA, hplA, hstA, hnrA, hhostA, hordA, hclkA, hltA, hidxA,
      key, q0, hkeyA, hkpA, hlkA, hnmA⟩ := advanceSlTurn_ok_spec hadv
    have hpl2 : g3.players =
        setP g.players u { p with position := rollFinalPos p.position die } := hplA
    have hord2 : g3.turnOrder = g.turnOrder.filter
        (fun k => decide (k ∈ playingKeysOf
          (setP g.players u { p with position := rollFinalPos p.position die }))) := hordA
    have hfil : g.turnOrder.filter (fun k => decide (k ∈ playingKeysOf
        (setP g.players u { p with position := rollFinalPos p.position die }))) =
        g.turnOrder := by
      apply List.filter_eq_self.mpr
      intro k hk
      simp only [decide_eq_true_eq]
      by_cases hku : k = u
      · subst hku
        exact mem_playingKeysOf.mpr
          ⟨_, lookupP_mem (lookupP_setP_self g.players k _), hppl⟩
      · obtain ⟨pk, hpk, hpkpl⟩ := hto k hk
        refine mem_playingKeysOf.mpr ⟨pk, ?_, hpkpl⟩
        exact lookupP_mem (by rw [lookupP_setP_ne _ _ hku]; exact hpk)
    refine ⟨?_, ?_, ?_, ?_, ?_⟩
    · rw [hord2, hfil]
    · have hidx2 : g3.currentTurnIndex =
          if g3.turnOrder.length ≤ g.currentTurnIndex + 1 then 0
          else g.currentTurnIndex + 1 := hidxA
      rw [hord2, hfil] at hidx2
      by_cases hle : g.turnOrder.length ≤ g.currentTurnIndex + 1
      · rw [if_pos hle] at hidx2
        have heq : g.currentTurnIndex + 1 = g.turnOrder.length := by omega
        rw [hidx2, heq, Nat.mod_self]
      · rw [if_neg hle] at hidx2
        rw [hidx2, Nat.mod_eq_of_lt (Nat.lt_of_not_le hle)]
    · have hndA : (keysP (setP g.players u
          { p with position := rollFinalPos p.position die })).Nodup := by
        rw [keysP_setP_mem _ hu]
        exact hnd
      have hkp2 : key ∈ playingKeysOf
          (setP g.players u { p with position := rollFinalPos p.position die }) := hkpA
      obtain ⟨q, hq, hqpl⟩ := lookupP_playing_of_mem_playingKeys hndA hkp2
      refine ⟨key, q, hkeyA, ?_, hqpl⟩
      rw [hpl2]
      exact hq
    · intro u2 gs3 ms3 g3x h34 hg3
      simp only [slStep] at h34
      exact slQuit_turnOrder_sublist hg h34 hg3
    · intro a b t gs3 ms3 g3x h34 hg3
      simp only [slStep] at h34
      exact slKick_turnOrder_sublist hg h34 hg3

/-- Witness: a rolls a 1 at the freshly started two-player game `c4wGs`;
the order stays `[a, b]` and the pointer moves from 0 to 1 = (0 + 1) % 2. -/
theorem sl_roll_turn_advance_witness :
    c4wPostGame.turnOrder = c4wGame.turnOrder ∧
    c4wPostGame.currentTurnIndex =
      (c4wGame.currentTurnIndex + 1) % c4wGame.turnOrder.length := by
  have h := sl_roll_turn_advance c4wGs c4wGame "a"
    { username := "a", userid := some 1 } 1 c4wPost
    [Msg.rolled "a" 1 2, Msg.turnPasses "b"] c4wPostGame
    ⟨c4wTrace, by decide⟩ (by decide) (by decide) (by decide) (by decide)
    (by decide) (by decide) (by decide) (by decide) (by decide)
  exact ⟨h.1, h.2.1⟩

/-- C6: the scheduler policy on an active game with the turn clock set.
The current player is `playing` and `next_rank` is the next unused rank;
at more than 15s with no first warning the sweep sends exactly the time
warning and sets the first flag; at more than 30s with the first warning
sent it sends exactly the final warning and sets the second flag; at more
than 45s (`SL_TURN_DURATION_SECONDS`) with both warnings sent it
eliminates the current player (notification sent, kick attempted on a
known userid, player removed from the dict) and advances the turn, and
when elimination leaves exactly one playing player that player is crowned
default winner with rank `next_rank` and the game is deleted. -/
theorem sl_turn_timeout_policy (gs : GState) (g : SLGame) (cur : String)
    (p : SLPlayer)
    (hreach : SLReach gs) (hg : gs.game = some g) (hact : g.status = .active)
    (hclk : g.turnClockSet = true)
    (hcur : g.turnOrder[g.currentTurnIndex]? = some cur)
    (hp : lookupP g.players cur = some p) :
    p.status = PStatus.playing ∧
    g.nextRank = gs.rankEvents.length + 1 ∧
    (∀ e1, 15 < e1 → g.warn1 = false →
      slStep (.sweep e1) gs =
        .ok ({ gs with game := some { g with warn1 := true } },
             [Msg.warnTime p.username])) ∧
    (∀ e2, 30 < e2 → g.warn1 = true → g.warn2 = false →
      slStep (.sweep e2) gs =
        .ok ({ gs with game := some { g with warn2 := true } },
             [Msg.finalWarn p.username])) ∧
    (∀ e3 gs2 ms, 45 < e3 → g.warn1 = true → g.warn2 = true →
      slStep (.sweep e3) gs = .ok (gs2, ms) →
      Msg.eliminated p.username ∈ ms ∧
      (∀ uid, p.userid = some uid → Msg.kickUser uid ∈ ms) ∧
      (∀ g2, gs2.game = some g2 →
        lookupP g2.players cur = none ∧ g2.turnClockSet = true ∧
        ∃ nm, Msg.turnPasses nm ∈ ms) ∧
      ((playingEntries (eraseP g.players cur)).length = 1 →
        gs2.game = none ∧
        ∃ w q, lookupP (eraseP g.players cur) w = some q ∧
          q.status = PStatus.playing ∧
          gs2.rankEvents = gs.rankEvents ++ [(w, g.nextRank)] ∧
          Msg.defaultWinner q.username ∈ ms)) := by
  have hwf := SLReach_WF hreach
  obtain ⟨hrk, hgwf⟩ := hwf
  obtain ⟨hnr, hnd, hto, hconvG, hcnt2, hpo, hlob⟩ := hgwf g hg
  have hidxlt : g.currentTurnIndex < g.turnOrder.length := by
    by_contra hc
    rw [List.getElem?_eq_none (Nat.le_of_not_lt hc)] at hcur
    cases hcur
  have hppl : p.status = PStatus.playing := by
    obtain ⟨p0, hp0, hp0pl⟩ := hto cur (List.getElem?_mem hcur)
    rw [hp] at hp0
    injection hp0 with hpe
    rw [hpe]
    exact hp0pl
  have hnd2 : (keysP (eraseP g.players cur)).Nodup :=
    (keysP_eraseP_sublist _ _).nodup hnd
  refine ⟨hppl, hnr, ?_, ?_, ?_⟩
  · intro e1 he1 hw1
    simp only [slStep, slSweep, hg]
    rw [if_neg (by simp [hact, hclk])]
    rw [if_neg (Nat.not_le.mpr hidxlt)]
    simp only [hcur, hp]
    rw [if_neg (by simp [hppl])]
    rw [if_pos ⟨he1, hw1⟩]
  · intro e2 he2 hw1 hw2
    simp only [slStep, slSweep, hg]
    rw [if_neg (by simp [hact, hclk])]
    rw [if_neg (Nat.not_le.mpr hidxlt)]
    simp only [hcur, hp]
    rw [if_neg (by simp [hppl])]
    rw [if_neg (by simp [hw1])]
    rw [if_pos ⟨he2, hw2⟩]
  · intro e3 gs2 ms he3 hw1 hw2 hstep
    simp only [slStep, slSweep, hg] at hstep
    rw [if_neg (by simp [hact, hclk])] at hstep
    rw [if_neg (Nat.not_le.mpr hidxlt)] at hstep
    simp only [hcur, hp] at hstep
    rw [if_neg (by simp [hppl])] at hstep
    rw [if_neg (by simp [hw1])] at hstep
    rw [if_neg (by simp [hw2])] at hstep
    rw [if_pos (show SL_TURN_DURATION_SECONDS < e3 from he3)] at hstep
    split at hstep
    next hle1 =>
      split at hstep
      next heq1 =>
        split at hstep
        · simp at hstep
        next e hfind =>
          simp only [Except.ok.injEq, Prod.mk.injEq] at hstep
          obtain ⟨h4, h5⟩ := hstep
          subst h4
          refine ⟨?_, ?_, ?_, ?_⟩
          · rw [← h5]
            simp
          · intro uid huid
            rw [← h5, huid]
            simp
          · intro g2 hg2
            simp at hg2
          · intro _
            refine ⟨rfl, e.1, e.2, ?_, ?_, rfl, ?_⟩
            · exact lookupP_of_mem_nodup (List.mem_of_find?_eq_some hfind) hnd2
            · have := List.find?_some hfind
              simpa using this
            · rw [← h5]
              simp
      next hne1 =>
        simp only [Except.ok.injEq, Prod.mk.injEq] at hstep
        obtain ⟨h4, h5⟩ := hstep
        subst h4
        refine ⟨?_, ?_, ?_, ?_⟩
        · rw [← h5]
          simp
        · intro uid huid
          rw [← h5, huid]
          simp
        · intro g2 hg2
          simp at hg2
        · intro hone
          exact absurd hone hne1
    next hgt1 =>
      split at hstep
      · simp at hstep
      next hadv =>
        simp only [Except.ok.injEq, Prod.mk.injEq] at hstep
        obtain ⟨h4, h5⟩ := hstep
        subst h4
        refine ⟨?_, ?_, ?_, ?_⟩
        · rw [← h5]
          simp
        · intro uid huid
          rw [← h5, huid]
          simp
        · intro g2 hg2
          simp at hg2
        · intro hone
          exfalso
          omega
      next g3 nm hadv =>
        simp only [Except.ok.injEq, Prod.mk.injEq] at hstep
        obtain ⟨h4, h5⟩ := hstep
        subst h4
        obtain ⟨hactA, hplA, hstA, hnrA, hhostA, hordA, hclkA, hltA, hidxA,
          key, q0, hkeyA, hkpA, hlkA, hnmA⟩ := advanceSlTurn_ok_spec hadv
        refine ⟨?_, ?_, ?_, ?_⟩
        · rw [← h5]
          simp
        · intro uid huid
          rw [← h5, huid]
          simp
        · intro g2 hg2
          have hg2b : some g3 = some g2 := hg2
          injection hg2b with hg2c
          subst hg2c
          refine ⟨?_, hclkA, nm, by rw [← h5]; simp⟩
          have hpl2 : g3.players = eraseP g.players cur := hplA
          rw [hpl2]
          exact lookupP_eraseP_self hnd
        · intro hone
          exfalso
          omega

/-- Witness: at the reachable state `c6Gs` (both warnings sent, player a
on turn) the 46-second sweep eliminates a, attempts the kick on userid 1,
and crowns b by default; the game entry is deleted. -/
theorem sl_turn_timeout_policy_witness :
    Msg.eliminated "a" ∈ c6SweepMs ∧ Msg.kickUser 1 ∈ c6SweepMs ∧
    ({ game := none, pendingJoins := [], rankEvents := [("b", 1)] } : GState).game =
      none := by
  have h := sl_turn_timeout_policy c6Gs c6Game "a"
    { username := "a", userid := some 1 }
    ⟨c6Trace, by decide⟩ (by decide) (by decide) (by decide) (by decide) (by decide)
  have h5 := h.2.2.2.2 46
    { game := none, pendingJoins := [], rankEvents := [("b", 1)] } c6SweepMs
    (by decide) (by decide) (by decide) (by decide)
  exact ⟨h5.1, h5.2.1 1 (by decide), (h5.2.2.2 (by decide)).1⟩
